import Mathlib

/-!
# The page map of libzdb (`core/page_map.cc`)

A sequential shallow embedding of `tsdb::PageMap`.

* 64 bit unsigned fields (`page_id_`, `version`, `refcount`) are natural numbers
  and every increment or decrement is taken modulo `2^64`.
* `map_` is an association list with at most one pair per key; an entry is stored
  by value under its page id, which stands for the pointer kept in the C++ map.
* `delete entry` is recorded in the ghost list `destroyed`; an entry that was taken
  out of `map_` (or never got into it) without being deleted is recorded in the
  ghost list `detached`. A deleted entry that `map_` still points to stays in `map_`.
* The failing `assert` of `loadPage` aborts the process: operations that reach
  `loadPage` return an `Option`, `none` standing for the abort.
* Memory allocation for the scratch region, the positional read and
  `PageBuffer::decode` are taken from an environment of type `Disk`.
* Mutexes and memory orderings play no role in a sequential run and are left out;
  `posix_fadvise` is an advisory hint without effect on the state.
-/

namespace tsdb

/-! ## Data model -/

/-- Modulus of `uint64_t` and of `size_t` arithmetic. -/
def UINT64 : Nat := 18446744073709551616

/-- Modelled from the spec: class `PageBuffer` is declared in `page_map.h`, which is
not among the sources. It is a value-sized container, constructed either empty or
with a declared `value_size`, copyable by value; `values` is its content. -/
structure PageBuffer where
  value_size : Nat
  values : List Nat
deriving DecidableEq, Repr

/-- The constructor call `PageBuffer()`. -/
def PageBuffer.empty : PageBuffer := { value_size := 0, values := [] }

/-- The constructor call `PageBuffer(value_size)`. -/
def PageBuffer.ofSize (value_size : Nat) : PageBuffer :=
  { value_size := value_size, values := [] }

/-- The struct `PageMapEntry`; `buffer` is the `unique_ptr<PageBuffer>`, `none` being
the null pointer. The per-entry mutex is left out. -/
structure PageMapEntry where
  refcount : Nat
  buffer : Option PageBuffer
  version : Nat
  value_size : Nat
  disk_addr : Nat
  disk_size : Nat
deriving DecidableEq, Repr

/-- The struct `PageInfo` filled by `getPageInfo`. -/
structure PageInfo where
  version : Nat
  is_dirty : Bool
  disk_addr : Nat
  disk_size : Nat
deriving DecidableEq, Repr

/-- The state of a `PageMap` object, with two ghost lists that record what became of
the entries that are no longer owned by `map_`. -/
structure PageMap where
  map_ : List (Nat × PageMapEntry)
  page_id_ : Nat
  detached : List (Nat × PageMapEntry)
  destroyed : List (Nat × PageMapEntry)
deriving DecidableEq, Repr

/-- What the operations need from outside: whether `malloc(size)` succeeds, the result
of `pread(fd_, buf, count, offset)` as return value and content of `buf` afterwards,
and `PageBuffer::decode(buf, len)` as return value and buffer afterwards. -/
structure Disk where
  malloc : Nat → Bool
  pread : Nat → Nat → Int × List Nat
  decode : PageBuffer → List Nat → Nat → Bool × PageBuffer

/-! ## The map container -/

/-- The lookup `map_.find(page_id)`; `none` stands for `map_.end()`. -/
def find : List (Nat × PageMapEntry) → Nat → Option PageMapEntry
  | [], _ => none
  | (k, e) :: m, page_id => if k = page_id then some e else find m page_id

/-- The insertion `map_.emplace(page_id, entry)`: nothing is inserted when the key is
already there. -/
def emplace (m : List (Nat × PageMapEntry)) (page_id : Nat) (entry : PageMapEntry) :
    List (Nat × PageMapEntry) :=
  match find m page_id with
  | some _ => m
  | none => m ++ [(page_id, entry)]

/-- The removal `map_.erase(iter)` of the pair found under `page_id`. -/
def erase (m : List (Nat × PageMapEntry)) (page_id : Nat) : List (Nat × PageMapEntry) :=
  m.filter (fun p => decide (p.1 ≠ page_id))

/-- A write through the entry pointer stored under `page_id`. -/
def store (m : List (Nat × PageMapEntry)) (page_id : Nat) (entry : PageMapEntry) :
    List (Nat × PageMapEntry) :=
  m.map (fun p => if p.1 = page_id then (p.1, entry) else p)

/-! ## Operations -/

/-- The constructor `PageMap(fd)`. -/
def PageMap.init : PageMap :=
  { map_ := [], page_id_ := 0, detached := [], destroyed := [] }

/-- The call `entry->refcount.fetch_add(1)`. -/
def fetchAdd (entry : PageMapEntry) : PageMapEntry :=
  { entry with refcount := (entry.refcount + 1) % UINT64 }

/-- `PageMap::dropEntryReference`: the refcount is decremented (adding `2^64 - 1`
modulo `2^64`); the first component tells whether the previous value was 1, in which
case the entry is deleted. -/
def dropEntryReference (entry : PageMapEntry) : Bool × PageMapEntry :=
  (decide (entry.refcount = 1),
    { entry with refcount := (UINT64 - 1 + entry.refcount) % UINT64 })

/-- The end of an operation on the entry stored under `page_id`: the entry as the
operation left it is written back and its transient reference is dropped. -/
def release (s : PageMap) (page_id : Nat) (entry : PageMapEntry) : PageMap :=
  let r := dropEntryReference entry
  { s with
    map_ := store s.map_ page_id r.2
    destroyed := if r.1 then s.destroyed ++ [(page_id, r.2)] else s.destroyed }

/-- `PageMap::allocPage`. -/
def allocPage (s : PageMap) (value_size : Nat) : Nat × PageMap :=
  let entry : PageMapEntry :=
    { refcount := 1
      buffer := some (PageBuffer.ofSize value_size)
      version := 1
      value_size := value_size
      disk_addr := 0
      disk_size := 0 }
  let page_id := (s.page_id_ + 1) % UINT64
  (page_id,
    { s with
      page_id_ := page_id
      map_ := emplace s.map_ page_id entry
      detached :=
        if (find s.map_ page_id).isSome then s.detached ++ [(page_id, entry)]
        else s.detached })

/-- `PageMap::addColdPage`. -/
def addColdPage (s : PageMap) (value_size disk_addr disk_size : Nat) : Nat × PageMap :=
  let entry : PageMapEntry :=
    { refcount := 1
      buffer := none
      version := 1
      value_size := value_size
      disk_addr := disk_addr
      disk_size := disk_size }
  let page_id := (s.page_id_ + 1) % UINT64
  (page_id,
    { s with
      page_id_ := page_id
      map_ := emplace s.map_ page_id entry
      detached :=
        if (find s.map_ page_id).isSome then s.detached ++ [(page_id, entry)]
        else s.detached })

/-- `PageMap::getPageInfo`; `info` is the struct behind the out pointer, returned as
the second component. -/
def getPageInfo (s : PageMap) (page_id : Nat) (info : PageInfo) :
    Bool × PageInfo × PageMap :=
  match find s.map_ page_id with
  | none => (false, info, s)
  | some e =>
    let entry := fetchAdd e
    let info : PageInfo :=
      { version := entry.version
        is_dirty := entry.buffer.isSome
        disk_addr := entry.disk_addr
        disk_size := entry.disk_size }
    (true, info, release s page_id entry)

/-- `PageMap::loadPage`; `buffer` is the buffer behind the out pointer. The result is
`none` when one of the two assertions fails. -/
def loadPage (d : Disk) (value_size disk_addr disk_size : Nat) (_buffer : PageBuffer) :
    Option (Bool × PageBuffer) :=
  if disk_addr = 0 then none
  else if disk_size = 0 then none
  else
    let buffer := PageBuffer.ofSize value_size
    if d.malloc disk_size = false then some (false, buffer)
    else
      let r := d.pread disk_size disk_addr
      if 0 < r.1 then
        let dec := d.decode buffer r.2 disk_size
        if dec.1 = false then some (false, dec.2) else some (true, dec.2)
      else some (false, buffer)

/-- `PageMap::getPage`; `buf` is the buffer behind the out pointer, returned as the
second component. -/
def getPage (d : Disk) (s : PageMap) (page_id : Nat) (buf : PageBuffer) :
    Option (Bool × PageBuffer × PageMap) :=
  match find s.map_ page_id with
  | none => some (false, buf, s)
  | some e =>
    let entry := fetchAdd e
    match entry.buffer with
    | some b => some (true, b, release s page_id entry)
    | none =>
      let s1 := release s page_id entry
      match loadPage d entry.value_size entry.disk_addr entry.disk_size buf with
      | none => none
      | some (rc, out) => some (rc, out, s1)

/-- `PageMap::modifyPage`; `fn` returns its result and the buffer as it leaves it. On
a failed load the function returns without `dropEntryReference`. -/
def modifyPage (d : Disk) (s : PageMap) (page_id : Nat)
    (fn : PageBuffer → Bool × PageBuffer) : Option (Bool × PageMap) :=
  match find s.map_ page_id with
  | none => some (false, s)
  | some e =>
    let entry := fetchAdd e
    match entry.buffer with
    | some b =>
      let r := fn b
      some (r.1, release s page_id
        { entry with buffer := some r.2, version := (entry.version + 1) % UINT64 })
    | none =>
      match loadPage d entry.value_size entry.disk_addr entry.disk_size PageBuffer.empty with
      | none => none
      | some (false, _) =>
        some (false, { s with map_ := store s.map_ page_id { entry with buffer := none } })
      | some (true, b) =>
        let r := fn b
        some (r.1, release s page_id
          { entry with buffer := some r.2, version := (entry.version + 1) % UINT64 })

/-- `PageMap::flushPage`. -/
def flushPage (s : PageMap) (page_id version disk_addr disk_size : Nat) : PageMap :=
  match find s.map_ page_id with
  | none => s
  | some e =>
    let entry := fetchAdd e
    let entry :=
      if entry.version = version then
        { entry with disk_addr := disk_addr, disk_size := disk_size, buffer := none }
      else entry
    release s page_id entry

/-- `PageMap::deletePage`. -/
def deletePage (s : PageMap) (page_id : Nat) : PageMap :=
  match find s.map_ page_id with
  | none => s
  | some entry =>
    let r := dropEntryReference entry
    if r.1 then
      { s with
        map_ := erase s.map_ page_id
        destroyed := s.destroyed ++ [(page_id, r.2)] }
    else
      { s with
        map_ := erase s.map_ page_id
        detached := s.detached ++ [(page_id, r.2)] }

/-- The destructor `~PageMap`: one `dropEntryReference` per pair of `map_`. -/
def destroy (s : PageMap) : PageMap :=
  { s with
    map_ := []
    destroyed := s.destroyed ++
      (s.map_.filter (fun p => (dropEntryReference p.2).1)).map
        (fun p => (p.1, (dropEntryReference p.2).2))
    detached := s.detached ++
      (s.map_.filter (fun p => !(dropEntryReference p.2).1)).map
        (fun p => (p.1, (dropEntryReference p.2).2)) }

/-! ## Sequential executions -/

/-- One call on a `PageMap`, with the environment it runs in where it reads the disk. -/
inductive Op where
  | allocPage (value_size : Nat)
  | addColdPage (value_size disk_addr disk_size : Nat)
  | getPageInfo (page_id : Nat) (info : PageInfo)
  | getPage (d : Disk) (page_id : Nat) (buf : PageBuffer)
  | modifyPage (d : Disk) (page_id : Nat) (fn : PageBuffer → Bool × PageBuffer)
  | flushPage (page_id version disk_addr disk_size : Nat)
  | deletePage (page_id : Nat)

/-- The state after the call, `none` when the process aborts in it. -/
def Op.step : Op → PageMap → Option PageMap
  | .allocPage value_size, s => some (tsdb.allocPage s value_size).2
  | .addColdPage value_size disk_addr disk_size, s =>
    some (tsdb.addColdPage s value_size disk_addr disk_size).2
  | .getPageInfo page_id info, s => some (tsdb.getPageInfo s page_id info).2.2
  | .getPage d page_id buf, s => (tsdb.getPage d s page_id buf).map (fun r => r.2.2)
  | .modifyPage d page_id fn, s => (tsdb.modifyPage d s page_id fn).map (fun r => r.2)
  | .flushPage page_id version disk_addr disk_size, s =>
    some (tsdb.flushPage s page_id version disk_addr disk_size)
  | .deletePage page_id, s => some (tsdb.deletePage s page_id)

/-- The page id a call returns, for the two calls that return one. -/
def Op.returned : Op → PageMap → Option Nat
  | .allocPage value_size, s => some (tsdb.allocPage s value_size).1
  | .addColdPage value_size disk_addr disk_size, s =>
    some (tsdb.addColdPage s value_size disk_addr disk_size).1
  | _, _ => none

/-- Whether the call is `allocPage` or `addColdPage`. -/
def Op.isAlloc : Op → Bool
  | .allocPage _ => true
  | .addColdPage _ _ _ => true
  | _ => false

/-- The calls of a list made one after the other; `none` when one of them aborts. -/
def run : List Op → PageMap → Option PageMap
  | [], s => some s
  | op :: ops, s =>
    match op.step s with
    | none => none
    | some s1 => run ops s1

/-- The page ids returned, in call order, by the calls of a list made one after the
other; a call that aborts ends the execution. -/
def returnedIds : List Op → PageMap → List Nat
  | [], _ => []
  | op :: ops, s =>
    match op.step s with
    | none => []
    | some s1 => (op.returned s).toList ++ returnedIds ops s1

/-- The number of `allocPage` and `addColdPage` calls in a list. -/
def allocCount (ops : List Op) : Nat := (ops.filter Op.isAlloc).length

/-- Whether `modifyPage(page_id, fn)` gets as far as calling `fn` in state `s`: the
entry is there and is hot, or is cold and `loadPage` returns true. -/
def reachesFn (d : Disk) (s : PageMap) (page_id : Nat) : Bool :=
  match find s.map_ page_id with
  | none => false
  | some e =>
    match e.buffer with
    | some _ => true
    | none =>
      match loadPage d e.value_size e.disk_addr e.disk_size PageBuffer.empty with
      | some (true, _) => true
      | _ => false

/-- 1 when the call is a `modifyPage` on `page_id` that calls its function in state
`s`, 0 otherwise. -/
def Op.bump (page_id : Nat) : Op → PageMap → Nat
  | .modifyPage d id _, s => if id = page_id ∧ reachesFn d s id = true then 1 else 0
  | _, _ => 0

/-- The number of `modifyPage` calls on `page_id` that call their function, when the
calls of a list are made one after the other. -/
def fnCalls (page_id : Nat) : List Op → PageMap → Nat
  | [], _ => 0
  | op :: ops, s =>
    match op.step s with
    | none => 0
    | some s1 => op.bump page_id s + fnCalls page_id ops s1

/-- Whether the call is neither `flushPage` nor `deletePage` on `page_id`. -/
def Op.keeps (page_id : Nat) : Op → Bool
  | .flushPage id _ _ _ => decide (id ≠ page_id)
  | .deletePage id => decide (id ≠ page_id)
  | _ => true

/-- `n` calls of `allocPage(value_size)` in a row. -/
def allocMany (value_size : Nat) (n : Nat) (s : PageMap) : PageMap :=
  (fun t => (allocPage t value_size).2)^[n] s

/-- `n` calls of `modifyPage(page_id, fn)` in a row; a call that aborts leaves the state
as it is. -/
def modifyMany (d : Disk) (page_id : Nat) (fn : PageBuffer → Bool × PageBuffer) (n : Nat)
    (s : PageMap) : PageMap :=
  (fun t => ((modifyPage d t page_id fn).map (fun r => r.2)).getD t)^[n] s

/-! ## Example values -/

/-- A disk on which every read succeeds and decoding stores the bytes read. -/
def diskGood : Disk :=
  { malloc := fun _ => true
    pread := fun count offset => ((count : Int), [offset, count])
    decode := fun b bytes _ => (true, { b with values := bytes }) }

/-- A disk on which `pread` returns 0. -/
def diskBad : Disk :=
  { malloc := fun _ => true
    pread := fun _ _ => (0, [])
    decode := fun b bytes _ => (true, { b with values := bytes }) }

/-- A function that writes one value and returns true. -/
def fnWrite (v : Nat) : PageBuffer → Bool × PageBuffer :=
  fun b => (true, { b with values := [v] })

/-- A function that leaves the buffer alone and returns false. -/
def fnFalse : PageBuffer → Bool × PageBuffer :=
  fun b => (false, b)

/-- Two allocations, a modification and a delete of the first page, then a third
allocation. -/
def opsExample : List Op :=
  [.allocPage 64, .addColdPage 64 4096 128, .modifyPage diskGood 1 (fnWrite 171),
   .deletePage 1, .allocPage 32]

/-- One `modifyPage` on page 1 with a function that returns false. -/
def opsOneModify : List Op := [.modifyPage diskGood 1 fnFalse]

/-- The state after `allocPage(64)` and `addColdPage(64, 4096, 128)` on a new map. -/
def stTwoPages : PageMap := (addColdPage (allocPage PageMap.init 64).2 64 4096 128).2

/-- The state after `deletePage(1)`, `allocPage(32)` and `addColdPage(16, 8192, 64)` on
`stTwoPages`. -/
def stAfterDelete : PageMap :=
  (addColdPage (allocPage (deletePage stTwoPages 1) 32).2 16 8192 64).2

/-- A `PageInfo` with all fields zero. -/
def infoZero : PageInfo := { version := 0, is_dirty := false, disk_addr := 0, disk_size := 0 }

/-- The state after `allocPage(64)` on a new map. -/
def stAlloc : PageMap := (allocPage PageMap.init 64).2

/-- The state after `allocPage(64)` and one `modifyPage` on a new map. -/
def stModified : PageMap :=
  release stAlloc 1
    { refcount := 2, buffer := some { value_size := 64, values := [171] }, version := 2,
      value_size := 64, disk_addr := 0, disk_size := 0 }

/-- The state after `allocPage(64)` and two `modifyPage` calls on a new map. -/
def stTwice : PageMap :=
  release stModified 1
    { refcount := 2, buffer := some { value_size := 64, values := [205] }, version := 3,
      value_size := 64, disk_addr := 0, disk_size := 0 }

/-- The state after `addColdPage(64, 4096, 128)` on a new map. -/
def stCold : PageMap := (addColdPage PageMap.init 64 4096 128).2

/-- A map with one hot page whose version is the largest 64 bit value. -/
def stMaxVersion : PageMap :=
  { map_ := [(1, { refcount := 1, buffer := some (PageBuffer.ofSize 64),
                   version := 18446744073709551615, value_size := 64,
                   disk_addr := 0, disk_size := 0 })]
    page_id_ := 1, detached := [], destroyed := [] }

/-- Whether the call passes a positive disk address and a positive disk size, for the
two calls that take them. -/
def Op.diskArgsPositive : Op → Bool
  | .addColdPage _ disk_addr disk_size => decide (0 < disk_addr) && decide (0 < disk_size)
  | .flushPage _ _ disk_addr disk_size => decide (0 < disk_addr) && decide (0 < disk_size)
  | _ => true

/-- `allocPage(64)`, then a flush of the new page with disk address 0 and disk size 0. -/
def opsFlushZero : List Op := [.allocPage 64, .flushPage 1 1 0 0]


/-- `allocPage(64)`, `addColdPage(64, 4096, 128)`, then a flush of page 1 at version 1 to
disk address 8192 with disk size 64. -/
def opsFlushed : List Op := [.allocPage 64, .addColdPage 64 4096 128, .flushPage 1 1 8192 64]

/-- The state after the calls of `opsFlushed` on a new map. -/
def stFlushed : PageMap := flushPage stTwoPages 1 1 8192 64


/-- Whether the call is a `modifyPage` on `page_id`. -/
def Op.modifiesPage (page_id : Nat) : Op → Bool
  | .modifyPage _ id _ => decide (id = page_id)
  | _ => false

/-- The number of `modifyPage` calls on `page_id` in a list. -/
def modifyCount (page_id : Nat) (ops : List Op) : Nat :=
  (ops.filter (Op.modifiesPage page_id)).length


/-- The ghost value `version_at_last_flush` of every page id after one call in state `s`,
from its value `g` before: the version at the last `flushPage` that matched the version
of the entry, 1 for an entry just inserted by `addColdPage`, nothing for an entry just
inserted by `allocPage` or for a deleted page. -/
def Op.ghost (op : Op) (s : PageMap) (g : Nat → Option Nat) : Nat → Option Nat := fun k =>
  match op with
  | .allocPage value_size =>
    if k = (tsdb.allocPage s value_size).1 ∧ find s.map_ k = none then none else g k
  | .addColdPage value_size disk_addr disk_size =>
    if k = (tsdb.addColdPage s value_size disk_addr disk_size).1 ∧ find s.map_ k = none
    then some 1 else g k
  | .flushPage page_id version _ _ =>
    if k = page_id then
      match find s.map_ page_id with
      | some e => if e.version = version then some version else g k
      | none => g k
    else g k
  | .deletePage page_id => if k = page_id then none else g k
  | _ => g k

/-- The ghost value `version_at_last_flush` of every page id at the end of an execution. -/
def runGhost : List Op → PageMap → (Nat → Option Nat) → Nat → Option Nat
  | [], _, g => g
  | op :: ops, s, g =>
    match op.step s with
    | none => g
    | some s1 => runGhost ops s1 (op.ghost s g)

/-- A map with one hot page, never flushed, whose version is `v`. -/
def stVersion (v : Nat) : PageMap :=
  { map_ := [(1, { refcount := 1, buffer := some (PageBuffer.ofSize 64), version := v,
                   value_size := 64, disk_addr := 0, disk_size := 0 })]
    page_id_ := 1, detached := [], destroyed := [] }

/-- `allocPage(64)`, then `2^64 - 2` calls of `modifyPage` on page 1, a flush of page 1
at version `2^64 - 1`, and one more `modifyPage`. -/
def opsWrapDirty : List Op :=
  .allocPage 64 ::
    (List.replicate 18446744073709551614 (.modifyPage diskGood 1 fnFalse) ++
      [.flushPage 1 18446744073709551615 4096 128, .modifyPage diskGood 1 fnFalse])

/-- `addColdPage(64, 4096, 128)`, a `modifyPage` that loads the page, a flush at version
2 and another `modifyPage`. -/
def opsColdCycle : List Op :=
  [.addColdPage 64 4096 128, .modifyPage diskGood 1 (fnWrite 7), .flushPage 1 2 8192 64,
   .modifyPage diskGood 1 (fnWrite 9)]


/-- The state after the calls of `opsColdCycle` on a new map. -/
def stColdCycle : PageMap := (run opsColdCycle PageMap.init).getD PageMap.init

/-- The state at the end of `opsWrapDirty`: page 1 is hot at disk address 4096 with
version 0. -/
def stWrapDirty : PageMap :=
  { map_ := [(1, { refcount := 1, buffer := some { value_size := 64, values := [4096, 128] },
                   version := 0, value_size := 64, disk_addr := 4096, disk_size := 128 })]
    page_id_ := 1, detached := [], destroyed := [] }


/-! ## Lock and disk events -/

/-- What an operation does to the two kinds of mutex and to the backing file, and the
call of the function passed to `modifyPage`. -/
inductive Event where
  | lockMap
  | unlockMap
  | lockEntry
  | unlockEntry
  | pread
  | fadvise
  | callFn
deriving DecidableEq, Repr

/-- `PageMap::loadPage` with the events it goes through: no event up to a failed
assertion or a failed `malloc`, one `pread` otherwise. -/
def loadPageTraced (d : Disk) (value_size disk_addr disk_size : Nat) (_buffer : PageBuffer) :
    List Event × Option (Bool × PageBuffer) :=
  if disk_addr = 0 then ([], none)
  else if disk_size = 0 then ([], none)
  else
    let buffer := PageBuffer.ofSize value_size
    if d.malloc disk_size = false then ([], some (false, buffer))
    else
      let r := d.pread disk_size disk_addr
      if 0 < r.1 then
        let dec := d.decode buffer r.2 disk_size
        if dec.1 = false then ([.pread], some (false, dec.2))
        else ([.pread], some (true, dec.2))
      else ([.pread], some (false, buffer))

/-- `PageMap::allocPage` with its events: the map mutex is held from the insertion to
the return. -/
def allocPageTraced (s : PageMap) (value_size : Nat) : List Event × (Nat × PageMap) :=
  ([.lockMap, .unlockMap], allocPage s value_size)

/-- `PageMap::addColdPage` with its events. -/
def addColdPageTraced (s : PageMap) (value_size disk_addr disk_size : Nat) :
    List Event × (Nat × PageMap) :=
  ([.lockMap, .unlockMap], addColdPage s value_size disk_addr disk_size)

/-- `PageMap::getPageInfo` with its events; on the early return the map mutex is
released by the destructor of the lock object. -/
def getPageInfoTraced (s : PageMap) (page_id : Nat) (info : PageInfo) :
    List Event × (Bool × PageInfo × PageMap) :=
  match find s.map_ page_id with
  | none => ([.lockMap, .unlockMap], (false, info, s))
  | some e =>
    let entry := fetchAdd e
    let info : PageInfo :=
      { version := entry.version
        is_dirty := entry.buffer.isSome
        disk_addr := entry.disk_addr
        disk_size := entry.disk_size }
    ([.lockMap, .unlockMap, .lockEntry, .unlockEntry], (true, info, release s page_id entry))

/-- `PageMap::getPage` with its events; the disk is read after the entry lock is
released. -/
def getPageTraced (d : Disk) (s : PageMap) (page_id : Nat) (buf : PageBuffer) :
    List Event × Option (Bool × PageBuffer × PageMap) :=
  match find s.map_ page_id with
  | none => ([.lockMap, .unlockMap], some (false, buf, s))
  | some e =>
    let entry := fetchAdd e
    match entry.buffer with
    | some b =>
      ([.lockMap, .unlockMap, .lockEntry, .unlockEntry],
        some (true, b, release s page_id entry))
    | none =>
      let s1 := release s page_id entry
      let l := loadPageTraced d entry.value_size entry.disk_addr entry.disk_size buf
      ([.lockMap, .unlockMap, .lockEntry, .unlockEntry] ++ l.1,
        match l.2 with
        | none => none
        | some (rc, out) => some (rc, out, s1))

/-- `PageMap::modifyPage` with its events; the disk is read under the entry lock, and on
a failed load the entry lock is released by the destructor of the lock object. -/
def modifyPageTraced (d : Disk) (s : PageMap) (page_id : Nat)
    (fn : PageBuffer → Bool × PageBuffer) : List Event × Option (Bool × PageMap) :=
  match find s.map_ page_id with
  | none => ([.lockMap, .unlockMap], some (false, s))
  | some e =>
    let entry := fetchAdd e
    match entry.buffer with
    | some b =>
      let r := fn b
      ([.lockMap, .unlockMap, .lockEntry, .callFn, .unlockEntry],
        some (r.1, release s page_id
          { entry with buffer := some r.2, version := (entry.version + 1) % UINT64 }))
    | none =>
      let l := loadPageTraced d entry.value_size entry.disk_addr entry.disk_size
        PageBuffer.empty
      match l.2 with
      | none => ([.lockMap, .unlockMap, .lockEntry] ++ l.1, none)
      | some (false, _) =>
        ([.lockMap, .unlockMap, .lockEntry] ++ l.1 ++ [.unlockEntry],
          some (false, { s with map_ := store s.map_ page_id { entry with buffer := none } }))
      | some (true, b) =>
        let r := fn b
        ([.lockMap, .unlockMap, .lockEntry] ++ l.1 ++ [.fadvise, .callFn, .unlockEntry],
          some (r.1, release s page_id
            { entry with buffer := some r.2, version := (entry.version + 1) % UINT64 }))

/-- `PageMap::flushPage` with its events. -/
def flushPageTraced (s : PageMap) (page_id version disk_addr disk_size : Nat) :
    List Event × PageMap :=
  match find s.map_ page_id with
  | none => ([.lockMap, .unlockMap], s)
  | some _ =>
    ([.lockMap, .unlockMap, .lockEntry, .unlockEntry],
      flushPage s page_id version disk_addr disk_size)

/-- `PageMap::deletePage` with its events; the hint to the file system comes after the
map mutex is released. -/
def deletePageTraced (s : PageMap) (page_id : Nat) : List Event × PageMap :=
  match find s.map_ page_id with
  | none => ([.lockMap, .unlockMap], s)
  | some entry =>
    ([.lockMap, .unlockMap] ++
        (if 0 < entry.disk_addr ∧ entry.buffer = none then [.fadvise] else []),
      deletePage s page_id)

/-- The events of one call. -/
def Op.trace : Op → PageMap → List Event
  | .allocPage value_size, s => (allocPageTraced s value_size).1
  | .addColdPage value_size disk_addr disk_size, s =>
    (addColdPageTraced s value_size disk_addr disk_size).1
  | .getPageInfo page_id info, s => (getPageInfoTraced s page_id info).1
  | .getPage d page_id buf, s => (getPageTraced d s page_id buf).1
  | .modifyPage d page_id fn, s => (modifyPageTraced d s page_id fn).1
  | .flushPage page_id version disk_addr disk_size, s =>
    (flushPageTraced s page_id version disk_addr disk_size).1
  | .deletePage page_id, s => (deletePageTraced s page_id).1

/-- Whether, in a list of events, every `pread`, every `fadvise` and every `lockEntry`
comes at a point where the map mutex is not held; `held` tells whether it is held at
the start. -/
def mapMutexFree : Bool → List Event → Bool
  | _, [] => true
  | _, .lockMap :: t => mapMutexFree true t
  | _, .unlockMap :: t => mapMutexFree false t
  | held, .lockEntry :: t => !held && mapMutexFree held t
  | held, .pread :: t => !held && mapMutexFree held t
  | held, .fadvise :: t => !held && mapMutexFree held t
  | held, .unlockEntry :: t => mapMutexFree held t
  | held, .callFn :: t => mapMutexFree held t


/-- The entry that `addColdPage(64, 4096, 128)` creates. -/
def entryCold : PageMapEntry :=
  { refcount := 1, buffer := none, version := 1, value_size := 64, disk_addr := 4096,
    disk_size := 128 }

end tsdb

namespace tsdb

/-! ## The map container: lookup after each change -/

theorem store_cons (m : List (Nat × PageMapEntry)) (page_id k0 : Nat)
    (e0 e1 : PageMapEntry) :
    store ((k0, e0) :: m) page_id e1 =
      (if k0 = page_id then (k0, e1) else (k0, e0)) :: store m page_id e1 := rfl

theorem erase_cons (m : List (Nat × PageMapEntry)) (page_id k0 : Nat) (e0 : PageMapEntry) :
    erase ((k0, e0) :: m) page_id =
      if k0 = page_id then erase m page_id else (k0, e0) :: erase m page_id := by
  by_cases h : k0 = page_id <;> simp [erase, List.filter_cons, h]

theorem find_cons (m : List (Nat × PageMapEntry)) (k0 k : Nat) (e0 : PageMapEntry) :
    find ((k0, e0) :: m) k = if k0 = k then some e0 else find m k := rfl

theorem find_store (m : List (Nat × PageMapEntry)) (page_id k : Nat) (e1 : PageMapEntry) :
    find (store m page_id e1) k =
      if k = page_id then (find m k).map (fun _ => e1) else find m k := by
  induction m with
  | nil => simp [store, find]
  | cons p m ih =>
    obtain ⟨k0, e0⟩ := p
    rw [store_cons]
    by_cases h0 : k0 = page_id
    · rw [if_pos h0, find_cons, find_cons, ih]
      by_cases hk : k0 = k
      · have : k = page_id := hk ▸ h0
        simp [hk, this]
      · simp [hk]
    · rw [if_neg h0, find_cons, find_cons, ih]
      by_cases hk : k0 = k
      · have : ¬ k = page_id := fun h => h0 (hk.trans h)
        simp [hk, this]
      · simp [hk]

theorem find_erase (m : List (Nat × PageMapEntry)) (page_id k : Nat) :
    find (erase m page_id) k = if k = page_id then none else find m k := by
  induction m with
  | nil => simp [erase, find]
  | cons p m ih =>
    obtain ⟨k0, e0⟩ := p
    rw [erase_cons]
    by_cases h0 : k0 = page_id
    · rw [if_pos h0, ih, find_cons]
      by_cases hk : k = page_id
      · simp [hk]
      · have : ¬ k0 = k := fun h => hk (h ▸ h0)
        simp [hk, this]
    · rw [if_neg h0, find_cons, find_cons, ih]
      by_cases hk : k0 = k
      · have : ¬ k = page_id := fun h => h0 (hk.trans h)
        simp [hk, this]
      · simp [hk]

theorem find_append_single (m : List (Nat × PageMapEntry)) (page_id k : Nat)
    (e1 : PageMapEntry) :
    find (m ++ [(page_id, e1)]) k =
      match find m k with
      | some x => some x
      | none => if k = page_id then some e1 else none := by
  induction m with
  | nil =>
    by_cases hk : k = page_id
    · subst hk; simp [find]
    · have : ¬ page_id = k := fun h => hk h.symm
      simp [find, hk, this]
  | cons p m ih =>
    obtain ⟨k0, e0⟩ := p
    by_cases h0 : k0 = k
    · simp [find, h0]
    · simp [find, h0, ih]

theorem find_emplace (m : List (Nat × PageMapEntry)) (page_id k : Nat) (e1 : PageMapEntry) :
    find (emplace m page_id e1) k =
      match find m k with
      | some x => some x
      | none => if k = page_id then some e1 else none := by
  unfold emplace
  cases hm : find m page_id with
  | some x =>
    simp only
    cases hk : find m k with
    | some y => rfl
    | none =>
      have : k ≠ page_id := by
        intro h; subst h; rw [hm] at hk; cases hk
      simp [this]
  | none => simpa using find_append_single m page_id k e1

theorem release_map (s : PageMap) (page_id : Nat) (entry : PageMapEntry) :
    (release s page_id entry).map_ = store s.map_ page_id (dropEntryReference entry).2 := rfl

theorem release_page_id (s : PageMap) (page_id : Nat) (entry : PageMapEntry) :
    (release s page_id entry).page_id_ = s.page_id_ := rfl

/-- Looking up a page after an operation on it wrote back `entry`. -/
theorem find_release_same (s : PageMap) (page_id : Nat) (e entry : PageMapEntry)
    (h : find s.map_ page_id = some e) :
    find (release s page_id entry).map_ page_id = some (dropEntryReference entry).2 := by
  simp [release_map, find_store, h]

/-- An operation on one page leaves the lookup of every other page alone. -/
theorem find_release_other (s : PageMap) (page_id k : Nat) (entry : PageMapEntry)
    (h : k ≠ page_id) :
    find (release s page_id entry).map_ k = find s.map_ k := by
  simp [release_map, find_store, h]

/-! ## Flushing -/

/-- The entry found after a flush whose version argument differs from its version. -/
theorem find_flushPage_stale (s : PageMap) (page_id version disk_addr disk_size : Nat)
    (e : PageMapEntry) (hfind : find s.map_ page_id = some e)
    (hver : version ≠ e.version) :
    find (flushPage s page_id version disk_addr disk_size).map_ page_id =
      some (dropEntryReference (fetchAdd e)).2 := by
  have hne : ¬ e.version = version := fun h => hver h.symm
  unfold flushPage
  rw [hfind]
  simp only [fetchAdd, hne, if_false]
  exact find_release_same s page_id e _ hfind

/-- C1: a flush whose version argument differs from the version of the entry leaves the
version, buffer, disk address, disk size and value size of the entry as they are, and
a following `getPageInfo` returns what it returned before. -/
theorem flushPage_stale_noop (s : PageMap) (page_id version disk_addr disk_size : Nat)
    (e : PageMapEntry) (hfind : find s.map_ page_id = some e)
    (hver : version ≠ e.version) :
    (∃ e1, find (flushPage s page_id version disk_addr disk_size).map_ page_id = some e1 ∧
      e1.version = e.version ∧ e1.buffer = e.buffer ∧ e1.disk_addr = e.disk_addr ∧
      e1.disk_size = e.disk_size ∧ e1.value_size = e.value_size) ∧
    ∀ info : PageInfo,
      (getPageInfo (flushPage s page_id version disk_addr disk_size) page_id info).1 =
        (getPageInfo s page_id info).1 ∧
      (getPageInfo (flushPage s page_id version disk_addr disk_size) page_id info).2.1 =
        (getPageInfo s page_id info).2.1 := by
  have hfl := find_flushPage_stale s page_id version disk_addr disk_size e hfind hver
  refine ⟨⟨(dropEntryReference (fetchAdd e)).2, hfl, ?_⟩, ?_⟩
  · simp [dropEntryReference, fetchAdd]
  · intro info
    unfold getPageInfo
    rw [hfl, hfind]
    simp [dropEntryReference, fetchAdd, release]

/-- C1, at the input of the second scenario: a page allocated and modified twice has
version 3, and `flushPage(1, 2, 4096, 128)` changes nothing. -/
theorem flushPage_stale_noop_witness :
    modifyPage diskGood stModified 1 (fnWrite 205) = some (true, stTwice) ∧
    (getPageInfo (flushPage stTwice 1 2 4096 128) 1 infoZero).2.1 =
      { version := 3, is_dirty := true, disk_addr := 0, disk_size := 0 } ∧
    ((∃ e1, find (flushPage stTwice 1 2 4096 128).map_ 1 = some e1 ∧
      e1.version = 3 ∧ e1.buffer = some { value_size := 64, values := [205] } ∧
      e1.disk_addr = 0 ∧ e1.disk_size = 0 ∧ e1.value_size = 64) ∧
    ∀ info : PageInfo,
      (getPageInfo (flushPage stTwice 1 2 4096 128) 1 info).1 =
        (getPageInfo stTwice 1 info).1 ∧
      (getPageInfo (flushPage stTwice 1 2 4096 128) 1 info).2.1 =
        (getPageInfo stTwice 1 info).2.1) :=
  ⟨by decide, by decide,
    flushPage_stale_noop stTwice 1 2 4096 128
      { refcount := 1, buffer := some { value_size := 64, values := [205] }, version := 3,
        value_size := 64, disk_addr := 0, disk_size := 0 }
      (by rfl) (by decide)⟩

/-- C2: a flush whose version argument equals the version of the entry records the new
disk address and size, drops the buffer and keeps the version, and the next
`getPageInfo` reports exactly that with `is_dirty = false`. -/
theorem flushPage_commit (s : PageMap) (page_id version disk_addr disk_size : Nat)
    (e : PageMapEntry) (hfind : find s.map_ page_id = some e)
    (hver : e.version = version) :
    (∃ e1, find (flushPage s page_id version disk_addr disk_size).map_ page_id = some e1 ∧
      e1.disk_addr = disk_addr ∧ e1.disk_size = disk_size ∧ e1.buffer = none ∧
      e1.version = version) ∧
    ∀ info : PageInfo,
      (getPageInfo (flushPage s page_id version disk_addr disk_size) page_id info).1 = true ∧
      (getPageInfo (flushPage s page_id version disk_addr disk_size) page_id info).2.1 =
        { version := version, is_dirty := false, disk_addr := disk_addr,
          disk_size := disk_size } := by
  have hfl : find (flushPage s page_id version disk_addr disk_size).map_ page_id =
      some (dropEntryReference
        { fetchAdd e with disk_addr := disk_addr, disk_size := disk_size,
                          buffer := none }).2 := by
    unfold flushPage
    rw [hfind]
    simp only [fetchAdd, hver, if_true]
    exact find_release_same s page_id e _ hfind
  refine ⟨⟨_, hfl, ?_⟩, ?_⟩
  · simp [dropEntryReference, fetchAdd, hver]
  · intro info
    unfold getPageInfo
    rw [hfl]
    simp [dropEntryReference, fetchAdd, hver]

/-- C2, at the input of the first scenario: `allocPage(64)`, one `modifyPage`, then
`flushPage(id, 2, 4096, 128)` gives version 2, not dirty, address 4096 and size 128. -/
theorem flushPage_commit_witness :
    modifyPage diskGood (allocPage PageMap.init 64).2 1 (fnWrite 171) =
      some (true, stModified) ∧
    ((∃ e1, find (flushPage stModified 1 2 4096 128).map_ 1 = some e1 ∧
      e1.disk_addr = 4096 ∧ e1.disk_size = 128 ∧ e1.buffer = none ∧ e1.version = 2) ∧
    ∀ info : PageInfo,
      (getPageInfo (flushPage stModified 1 2 4096 128) 1 info).1 = true ∧
      (getPageInfo (flushPage stModified 1 2 4096 128) 1 info).2.1 =
        { version := 2, is_dirty := false, disk_addr := 4096, disk_size := 128 }) :=
  ⟨by decide,
    flushPage_commit stModified 1 2 4096 128
      { refcount := 1, buffer := some { value_size := 64, values := [171] }, version := 2,
        value_size := 64, disk_addr := 0, disk_size := 0 }
      (by rfl) (by rfl)⟩

/-! ## Modifying -/

/-- What `modifyPage` does once the buffer `b` is in memory, be it the buffer of a hot
entry or the buffer loaded for a cold one. -/
theorem modifyPage_eq (d : Disk) (s : PageMap) (page_id : Nat)
    (fn : PageBuffer → Bool × PageBuffer) (e : PageMapEntry) (b : PageBuffer)
    (hfind : find s.map_ page_id = some e)
    (hbuf : e.buffer = some b ∨
      (e.buffer = none ∧
        loadPage d e.value_size e.disk_addr e.disk_size PageBuffer.empty = some (true, b))) :
    modifyPage d s page_id fn =
      some ((fn b).1, release s page_id
        { fetchAdd e with buffer := some (fn b).2, version := (e.version + 1) % UINT64 }) := by
  unfold modifyPage
  rw [hfind]
  rcases hbuf with hb | ⟨hb, hl⟩
  · simp only [fetchAdd, hb]
  · simp only [fetchAdd, hb, hl]

/-- What `modifyPage` does when the entry is cold and `loadPage` returns false. -/
theorem modifyPage_eq_of_load_failure (d : Disk) (s : PageMap) (page_id : Nat)
    (fn : PageBuffer → Bool × PageBuffer) (e : PageMapEntry) (b : PageBuffer)
    (hfind : find s.map_ page_id = some e) (hcold : e.buffer = none)
    (hload : loadPage d e.value_size e.disk_addr e.disk_size PageBuffer.empty =
      some (false, b)) :
    modifyPage d s page_id fn =
      some (false, { s with map_ := store s.map_ page_id { fetchAdd e with buffer := none } }) := by
  unfold modifyPage
  rw [hfind]
  simp only [fetchAdd, hcold, hload]

/-- The state after `allocPage(64)` and `n` calls of `modifyPage(1, fnFalse)` on a new
map: the version of page 1 is `(1 + n) mod 2^64`. -/
theorem modifyMany_stAlloc (n : Nat) :
    modifyMany diskGood 1 fnFalse n stAlloc =
      { map_ := [(1, { refcount := 1, buffer := some (PageBuffer.ofSize 64),
                       version := (1 + n) % UINT64, value_size := 64,
                       disk_addr := 0, disk_size := 0 })]
        page_id_ := 1, detached := [], destroyed := [] } := by
  induction n with
  | zero => decide
  | succ n ih =>
    unfold modifyMany at ih ⊢
    rw [Function.iterate_succ_apply', ih]
    have hv : ((1 + n) % UINT64 + 1) % UINT64 = (1 + (n + 1)) % UINT64 := by
      rw [Nat.add_mod, Nat.mod_mod, ← Nat.add_mod, Nat.add_assoc]
    have hr : (UINT64 - 1 + (1 + 1) % UINT64) % UINT64 = 1 := by decide
    simp only [modifyPage, find, fetchAdd, release, dropEntryReference, store, fnFalse,
      if_true, Option.map_some', Option.getD_some, List.map_cons, List.map_nil, hv, hr]
    simp
    decide

/-- The state `stMaxVersion` is reached from a new map by `allocPage(64)` and
`2^64 - 2` calls of `modifyPage`. -/
theorem stMaxVersion_reached :
    modifyMany diskGood 1 fnFalse 18446744073709551614 stAlloc = stMaxVersion := by
  rw [modifyMany_stAlloc]
  decide

/-- C3 (amended): on an entry that is hot, or cold with a successful load, `modifyPage`
returns the result of `fn` and sets the version to `(version + 1) mod 2^64`, whatever
`fn` returns: the version grows by exactly 1 unless it was `2^64 - 1`. Afterwards the
entry is hot with the buffer `fn` left behind and the disk fields are unchanged. -/
theorem modifyPage_bumps_version (d : Disk) (s : PageMap) (page_id : Nat)
    (fn : PageBuffer → Bool × PageBuffer) (e : PageMapEntry) (b : PageBuffer)
    (hfind : find s.map_ page_id = some e)
    (hbuf : e.buffer = some b ∨
      (e.buffer = none ∧
        loadPage d e.value_size e.disk_addr e.disk_size PageBuffer.empty = some (true, b))) :
    ∃ s1 e1, modifyPage d s page_id fn = some ((fn b).1, s1) ∧
      find s1.map_ page_id = some e1 ∧
      e1.version = (e.version + 1) % UINT64 ∧
      (e.version + 1 < UINT64 → e1.version = e.version + 1) ∧
      e1.buffer = some (fn b).2 ∧
      (∀ info, (getPageInfo s1 page_id info).2.1.is_dirty = true) ∧
      e1.disk_addr = e.disk_addr ∧ e1.disk_size = e.disk_size := by
  refine ⟨_, _, modifyPage_eq d s page_id fn e b hfind hbuf,
    find_release_same s page_id e _ hfind, ?_, ?_, ?_, ?_, ?_, ?_⟩
  · simp [dropEntryReference, fetchAdd]
  · intro h
    simp [dropEntryReference, fetchAdd, Nat.mod_eq_of_lt h]
  · simp [dropEntryReference, fetchAdd]
  · intro info
    unfold getPageInfo
    rw [find_release_same s page_id e _ hfind]
    simp [dropEntryReference, fetchAdd]
  · simp [dropEntryReference, fetchAdd]
  · simp [dropEntryReference, fetchAdd]

/-- C3 (amended), at a concrete input: a function that returns false on the page of
`stAlloc` still takes the version from 1 to 2. -/
theorem modifyPage_bumps_version_witness :
    ∃ s1 e1, modifyPage diskGood stAlloc 1 fnFalse =
        some ((fnFalse (PageBuffer.ofSize 64)).1, s1) ∧
      find s1.map_ 1 = some e1 ∧
      e1.version = (1 + 1) % UINT64 ∧
      (1 + 1 < UINT64 → e1.version = 1 + 1) ∧
      e1.buffer = some (fnFalse (PageBuffer.ofSize 64)).2 ∧
      (∀ info, (getPageInfo s1 1 info).2.1.is_dirty = true) ∧
      e1.disk_addr = 0 ∧ e1.disk_size = 0 :=
  modifyPage_bumps_version diskGood stAlloc 1 fnFalse
    { refcount := 1, buffer := some (PageBuffer.ofSize 64), version := 1,
      value_size := 64, disk_addr := 0, disk_size := 0 }
    (PageBuffer.ofSize 64) (by rfl) (Or.inl (by rfl))

/-- C3 as stated fails: on a hot entry whose version is `2^64 - 1` (reached from a new
map by `allocPage(64)` and `2^64 - 2` calls of `modifyPage`) the call returns the result
of `fn` and leaves version 0, which is not the old version plus 1. -/
theorem modifyPage_version_wraps :
    modifyMany diskGood 1 fnFalse 18446744073709551614 stAlloc = stMaxVersion ∧
    (find stMaxVersion.map_ 1).map (fun e => (e.buffer.isSome, e.version)) =
      some (true, 18446744073709551615) ∧
    (modifyPage diskGood stMaxVersion 1 fnFalse).map
      (fun r => (r.1, (find r.2.map_ 1).map (fun e => e.version))) = some (false, some 0) ∧
    ¬ ∃ s1 e1, modifyPage diskGood stMaxVersion 1 fnFalse = some (false, s1) ∧
      find s1.map_ 1 = some e1 ∧ e1.version = 18446744073709551615 + 1 := by
  refine ⟨stMaxVersion_reached, by decide, by decide, ?_⟩
  rintro ⟨s1, e1, h1, h2, h3⟩
  have h : (modifyPage diskGood stMaxVersion 1 fnFalse).map
      (fun r => (r.1, (find r.2.map_ 1).map (fun e => e.version))) = some (false, some 0) := by
    decide
  rw [h1] at h
  simp only [Option.map_some', h2, Prod.mk.injEq, Option.some.injEq, true_and] at h
  omega

/-- C4: when the entry is cold and `loadPage` returns false, `modifyPage` returns false
with a final state that does not depend on `fn`, and the entry still has no buffer and
the same version, disk address, disk size and value size. -/
theorem modifyPage_load_failure (d : Disk) (s : PageMap) (page_id : Nat)
    (e : PageMapEntry) (b : PageBuffer)
    (hfind : find s.map_ page_id = some e) (hcold : e.buffer = none)
    (hload : loadPage d e.value_size e.disk_addr e.disk_size PageBuffer.empty =
      some (false, b)) :
    ∃ s1 e1, (∀ fn, modifyPage d s page_id fn = some (false, s1)) ∧
      find s1.map_ page_id = some e1 ∧
      e1.buffer = none ∧ e1.version = e.version ∧ e1.disk_addr = e.disk_addr ∧
      e1.disk_size = e.disk_size ∧ e1.value_size = e.value_size := by
  refine ⟨_, { fetchAdd e with buffer := none },
    fun fn => modifyPage_eq_of_load_failure d s page_id fn e b hfind hcold hload, ?_, ?_⟩
  · simp [find_store, hfind]
  · simp [fetchAdd]

/-- C4, at a concrete input: the cold page of `stCold` on a disk whose read returns 0. -/
theorem modifyPage_load_failure_witness :
    ∃ s1 e1, (∀ fn, modifyPage diskBad stCold 1 fn = some (false, s1)) ∧
      find s1.map_ 1 = some e1 ∧
      e1.buffer = none ∧ e1.version = 1 ∧ e1.disk_addr = 4096 ∧
      e1.disk_size = 128 ∧ e1.value_size = 64 :=
  modifyPage_load_failure diskBad stCold 1
    { refcount := 1, buffer := none, version := 1, value_size := 64, disk_addr := 4096,
      disk_size := 128 }
    (PageBuffer.ofSize 64) (by rfl) (by rfl) (by decide)

/-- C5 fails on the code: after `addColdPage(64, 4096, 128)` the entry has refcount 1;
a `modifyPage` whose load fails returns false and leaves the entry, still in the map,
with refcount 2. -/
theorem modifyPage_load_failure_leaks_reference :
    (find stCold.map_ 1).map (fun e => e.refcount) = some 1 ∧
    (modifyPage diskBad stCold 1 (fnWrite 7)).map
      (fun r => (r.1, (find r.2.map_ 1).map (fun e => e.refcount))) = some (false, some 2) := by
  decide

/-! ## How one call changes the map and the id counter -/

theorem getPageInfo_shape (s : PageMap) (page_id : Nat) (info : PageInfo) :
    (getPageInfo s page_id info).2.2.page_id_ = s.page_id_ ∧
    ((getPageInfo s page_id info).2.2.map_ = s.map_ ∨
      ∃ entry, (getPageInfo s page_id info).2.2.map_ = store s.map_ page_id entry) := by
  unfold getPageInfo
  cases h : find s.map_ page_id with
  | none => exact ⟨rfl, Or.inl rfl⟩
  | some e => exact ⟨rfl, Or.inr ⟨_, rfl⟩⟩

theorem flushPage_shape (s : PageMap) (page_id version disk_addr disk_size : Nat) :
    (flushPage s page_id version disk_addr disk_size).page_id_ = s.page_id_ ∧
    ((flushPage s page_id version disk_addr disk_size).map_ = s.map_ ∨
      ∃ entry, (flushPage s page_id version disk_addr disk_size).map_ =
        store s.map_ page_id entry) := by
  unfold flushPage
  cases h : find s.map_ page_id with
  | none => exact ⟨rfl, Or.inl rfl⟩
  | some e => exact ⟨rfl, Or.inr ⟨_, rfl⟩⟩

theorem getPage_shape (d : Disk) (s : PageMap) (page_id : Nat) (buf : PageBuffer)
    (r : Bool × PageBuffer × PageMap) (h : getPage d s page_id buf = some r) :
    r.2.2.page_id_ = s.page_id_ ∧
    (r.2.2.map_ = s.map_ ∨ ∃ entry, r.2.2.map_ = store s.map_ page_id entry) := by
  unfold getPage at h
  cases hf : find s.map_ page_id with
  | none =>
    rw [hf] at h
    simp only [Option.some.injEq] at h
    subst h
    exact ⟨rfl, Or.inl rfl⟩
  | some e =>
    rw [hf] at h
    simp only at h
    cases hb : (fetchAdd e).buffer with
    | some b =>
      rw [hb] at h
      simp only [Option.some.injEq] at h
      subst h
      exact ⟨rfl, Or.inr ⟨_, rfl⟩⟩
    | none =>
      rw [hb] at h
      simp only at h
      cases hl : loadPage d (fetchAdd e).value_size (fetchAdd e).disk_addr
          (fetchAdd e).disk_size buf with
      | none => rw [hl] at h; cases h
      | some q =>
        rw [hl] at h
        simp only [Option.some.injEq] at h
        subst h
        exact ⟨rfl, Or.inr ⟨_, rfl⟩⟩

theorem modifyPage_shape (d : Disk) (s : PageMap) (page_id : Nat)
    (fn : PageBuffer → Bool × PageBuffer) (r : Bool × PageMap)
    (h : modifyPage d s page_id fn = some r) :
    r.2.page_id_ = s.page_id_ ∧
    (r.2.map_ = s.map_ ∨ ∃ entry, r.2.map_ = store s.map_ page_id entry) := by
  unfold modifyPage at h
  cases hf : find s.map_ page_id with
  | none =>
    rw [hf] at h
    simp only [Option.some.injEq] at h
    subst h
    exact ⟨rfl, Or.inl rfl⟩
  | some e =>
    rw [hf] at h
    simp only at h
    cases hb : (fetchAdd e).buffer with
    | some b =>
      rw [hb] at h
      simp only [Option.some.injEq] at h
      subst h
      exact ⟨rfl, Or.inr ⟨_, rfl⟩⟩
    | none =>
      rw [hb] at h
      simp only at h
      cases hl : loadPage d (fetchAdd e).value_size (fetchAdd e).disk_addr
          (fetchAdd e).disk_size PageBuffer.empty with
      | none => rw [hl] at h; cases h
      | some q =>
        obtain ⟨ok, b⟩ := q
        rw [hl] at h
        cases ok with
        | false =>
          simp only [Option.some.injEq] at h
          subst h
          exact ⟨rfl, Or.inr ⟨_, rfl⟩⟩
        | true =>
          simp only [Option.some.injEq] at h
          subst h
          exact ⟨rfl, Or.inr ⟨_, rfl⟩⟩

theorem deletePage_shape (s : PageMap) (page_id : Nat) :
    (deletePage s page_id).page_id_ = s.page_id_ ∧
    ((deletePage s page_id).map_ = s.map_ ∨
      (deletePage s page_id).map_ = erase s.map_ page_id) := by
  unfold deletePage
  cases h : find s.map_ page_id with
  | none => exact ⟨rfl, Or.inl rfl⟩
  | some e =>
    simp only
    split
    · exact ⟨rfl, Or.inr rfl⟩
    · exact ⟨rfl, Or.inr rfl⟩

/-- A call that is not an allocation returns no id, keeps the id counter and changes
the map by at most one write through an entry pointer or one removal. -/
theorem step_shape_other (op : Op) (s s1 : PageMap) (h : op.step s = some s1)
    (ha : op.isAlloc = false) :
    op.returned s = none ∧ s1.page_id_ = s.page_id_ ∧
    (s1.map_ = s.map_ ∨ (∃ id entry, s1.map_ = store s.map_ id entry) ∨
      ∃ id, s1.map_ = erase s.map_ id) := by
  cases op with
  | allocPage value_size => cases ha
  | addColdPage value_size disk_addr disk_size => cases ha
  | getPageInfo page_id info =>
    simp only [Op.step, Option.some.injEq] at h
    subst h
    obtain ⟨h1, h2⟩ := getPageInfo_shape s page_id info
    refine ⟨rfl, h1, ?_⟩
    rcases h2 with h2 | ⟨entry, h2⟩
    · exact Or.inl h2
    · exact Or.inr (Or.inl ⟨_, _, h2⟩)
  | getPage d page_id buf =>
    simp only [Op.step, Option.map_eq_some'] at h
    obtain ⟨r, hr, rfl⟩ := h
    obtain ⟨h1, h2⟩ := getPage_shape d s page_id buf r hr
    refine ⟨rfl, h1, ?_⟩
    rcases h2 with h2 | ⟨entry, h2⟩
    · exact Or.inl h2
    · exact Or.inr (Or.inl ⟨_, _, h2⟩)
  | modifyPage d page_id fn =>
    simp only [Op.step, Option.map_eq_some'] at h
    obtain ⟨r, hr, rfl⟩ := h
    obtain ⟨h1, h2⟩ := modifyPage_shape d s page_id fn r hr
    refine ⟨rfl, h1, ?_⟩
    rcases h2 with h2 | ⟨entry, h2⟩
    · exact Or.inl h2
    · exact Or.inr (Or.inl ⟨_, _, h2⟩)
  | flushPage page_id version disk_addr disk_size =>
    simp only [Op.step, Option.some.injEq] at h
    subst h
    obtain ⟨h1, h2⟩ := flushPage_shape s page_id version disk_addr disk_size
    refine ⟨rfl, h1, ?_⟩
    rcases h2 with h2 | ⟨entry, h2⟩
    · exact Or.inl h2
    · exact Or.inr (Or.inl ⟨_, _, h2⟩)
  | deletePage page_id =>
    simp only [Op.step, Option.some.injEq] at h
    subst h
    obtain ⟨h1, h2⟩ := deletePage_shape s page_id
    refine ⟨rfl, h1, ?_⟩
    rcases h2 with h2 | h2
    · exact Or.inl h2
    · exact Or.inr (Or.inr ⟨_, h2⟩)

/-- An allocation returns the incremented id counter and changes the map by one
`emplace` under that id. -/
theorem step_shape_alloc (op : Op) (s s1 : PageMap) (h : op.step s = some s1)
    (ha : op.isAlloc = true) :
    op.returned s = some ((s.page_id_ + 1) % UINT64) ∧
    s1.page_id_ = (s.page_id_ + 1) % UINT64 ∧
    ∃ entry, s1.map_ = emplace s.map_ ((s.page_id_ + 1) % UINT64) entry := by
  cases op with
  | allocPage value_size =>
    simp only [Op.step, Option.some.injEq] at h
    subst h
    exact ⟨rfl, rfl, _, rfl⟩
  | addColdPage value_size disk_addr disk_size =>
    simp only [Op.step, Option.some.injEq] at h
    subst h
    exact ⟨rfl, rfl, _, rfl⟩
  | getPageInfo page_id info => cases ha
  | getPage d page_id buf => cases ha
  | modifyPage d page_id fn => cases ha
  | flushPage page_id version disk_addr disk_size => cases ha
  | deletePage page_id => cases ha

theorem allocCount_cons (op : Op) (ops : List Op) :
    allocCount (op :: ops) = (if op.isAlloc = true then 1 else 0) + allocCount ops := by
  unfold allocCount
  by_cases h : op.isAlloc = true
  · simp [List.filter_cons, h, Nat.add_comm]
  · simp [List.filter_cons, h]

/-! ## Page ids -/

/-- While the id counter does not wrap, the ids returned by an execution all lie above
the counter it starts with and come in strictly increasing order; an execution that
does not abort returns one id per allocation. -/
theorem returnedIds_increasing (ops : List Op) :
    ∀ s : PageMap, s.page_id_ + allocCount ops < UINT64 →
      (∀ id ∈ returnedIds ops s, s.page_id_ < id) ∧
      (returnedIds ops s).Pairwise (fun a b => a < b) ∧
      (run ops s ≠ none → (returnedIds ops s).length = allocCount ops) := by
  induction ops with
  | nil =>
    intro s _
    simp [returnedIds, allocCount]
  | cons op ops ih =>
    intro s hs
    rw [allocCount_cons] at hs
    cases hstep : op.step s with
    | none => simp [returnedIds, run, hstep]
    | some s1 =>
      by_cases ha : op.isAlloc = true
      · obtain ⟨hret, hpid, _⟩ := step_shape_alloc op s s1 hstep ha
        simp only [ha, if_true] at hs
        have hlt : s.page_id_ + 1 < UINT64 := by omega
        rw [Nat.mod_eq_of_lt hlt] at hret hpid
        obtain ⟨h1, h2, h3⟩ := ih s1 (by rw [hpid]; omega)
        have hids : returnedIds (op :: ops) s = (s.page_id_ + 1) :: returnedIds ops s1 := by
          simp [returnedIds, hstep, hret]
        rw [hids]
        refine ⟨?_, ?_, ?_⟩
        · intro id hid
          rcases List.mem_cons.mp hid with h | h
          · omega
          · have := h1 id h
            omega
        · refine List.Pairwise.cons ?_ h2
          intro id hid
          have := h1 id hid
          omega
        · intro hrun
          have hrun1 : run ops s1 ≠ none := by simpa [run, hstep] using hrun
          rw [allocCount_cons]
          simp [ha, h3 hrun1, Nat.add_comm]
      · have ha0 : op.isAlloc = false := by simpa using ha
        obtain ⟨hret, hpid, _⟩ := step_shape_other op s s1 hstep ha0
        simp only [ha, if_false, Nat.zero_add] at hs
        obtain ⟨h1, h2, h3⟩ := ih s1 (by rw [hpid]; omega)
        have hids : returnedIds (op :: ops) s = returnedIds ops s1 := by
          simp [returnedIds, hstep, hret]
        rw [hids]
        refine ⟨?_, h2, ?_⟩
        · intro id hid
          have := h1 id hid
          omega
        · intro hrun
          have hrun1 : run ops s1 ≠ none := by simpa [run, hstep] using hrun
          rw [allocCount_cons]
          simp [ha, h3 hrun1]

/-- C6: in an execution that starts from a new map and holds fewer than `2^64`
`allocPage` and `addColdPage` calls, whatever other calls lie in between, the ids
returned are non-zero, pairwise distinct and strictly increasing in call order; when
no call aborts there is one id per allocation. -/
theorem returnedIds_unique (ops : List Op) (h : allocCount ops < UINT64) :
    (∀ id ∈ returnedIds ops PageMap.init, id ≠ 0) ∧
    (returnedIds ops PageMap.init).Nodup ∧
    (returnedIds ops PageMap.init).Pairwise (fun a b => a < b) ∧
    (run ops PageMap.init ≠ none →
      (returnedIds ops PageMap.init).length = allocCount ops) := by
  have h0 : PageMap.init.page_id_ + allocCount ops < UINT64 := by
    simpa [PageMap.init] using h
  obtain ⟨h1, h2, h3⟩ := returnedIds_increasing ops PageMap.init h0
  refine ⟨?_, ?_, h2, h3⟩
  · intro id hid
    have := h1 id hid
    omega
  · exact h2.imp (fun hab => Nat.ne_of_lt hab)

/-- C6, at a concrete input: two allocations, a delete of the first page and a third
allocation return the ids 1, 2 and 3. -/
theorem returnedIds_unique_witness :
    returnedIds opsExample PageMap.init = [1, 2, 3] ∧
    ((∀ id ∈ returnedIds opsExample PageMap.init, id ≠ 0) ∧
    (returnedIds opsExample PageMap.init).Nodup ∧
    (returnedIds opsExample PageMap.init).Pairwise (fun a b => a < b) ∧
    (run opsExample PageMap.init ≠ none →
      (returnedIds opsExample PageMap.init).length = allocCount opsExample)) :=
  ⟨by decide, returnedIds_unique opsExample (by decide)⟩

/-! ## Ids that are not in the map -/

/-- C8: on an id that is not in the map `getPageInfo`, `getPage` and `modifyPage` return
false (for every function passed), `flushPage` and `deletePage` return, and all five
leave the whole state as it is; and a second `deletePage` on an id changes nothing
after the first. -/
theorem notFound_noop (s : PageMap) (page_id : Nat) :
    (find s.map_ page_id = none →
      (∀ info, getPageInfo s page_id info = (false, info, s)) ∧
      (∀ d buf, getPage d s page_id buf = some (false, buf, s)) ∧
      (∀ d fn, modifyPage d s page_id fn = some (false, s)) ∧
      (∀ version disk_addr disk_size,
        flushPage s page_id version disk_addr disk_size = s) ∧
      deletePage s page_id = s) ∧
    deletePage (deletePage s page_id) page_id = deletePage s page_id := by
  have hnone : ∀ t : PageMap, find t.map_ page_id = none → deletePage t page_id = t := by
    intro t ht
    unfold deletePage
    rw [ht]
  refine ⟨fun h => ⟨?_, ?_, ?_, ?_, hnone s h⟩, ?_⟩
  · intro info; unfold getPageInfo; rw [h]
  · intro d buf; unfold getPage; rw [h]
  · intro d fn; unfold modifyPage; rw [h]
  · intro version disk_addr disk_size; unfold flushPage; rw [h]
  · apply hnone
    rcases (deletePage_shape s page_id).2 with h | h
    · cases hf : find s.map_ page_id with
      | none => rw [hnone s hf]; exact hf
      | some e =>
        have : (deletePage s page_id).map_ = erase s.map_ page_id := by
          unfold deletePage
          rw [hf]
          simp only
          split <;> rfl
        rw [this, find_erase]
        simp
    · rw [h, find_erase]
      simp

/-- C8, at concrete inputs: page 5 is not in the map of `stAlloc`, and page 1, which is
in it, is deleted twice. -/
theorem notFound_noop_witness :
    ((∀ info, getPageInfo stAlloc 5 info = (false, info, stAlloc)) ∧
      (∀ d buf, getPage d stAlloc 5 buf = some (false, buf, stAlloc)) ∧
      (∀ d fn, modifyPage d stAlloc 5 fn = some (false, stAlloc)) ∧
      (∀ version disk_addr disk_size,
        flushPage stAlloc 5 version disk_addr disk_size = stAlloc) ∧
      deletePage stAlloc 5 = stAlloc) ∧
    deletePage (deletePage stAlloc 1) 1 = deletePage stAlloc 1 :=
  ⟨(notFound_noop stAlloc 5).1 (by decide), (notFound_noop stAlloc 1).2⟩

/-! ## The flush protocol -/

theorem find_store_other (m : List (Nat × PageMapEntry)) (page_id k : Nat)
    (e1 : PageMapEntry) (h : k ≠ page_id) : find (store m page_id e1) k = find m k := by
  rw [find_store, if_neg h]

theorem find_erase_other (m : List (Nat × PageMapEntry)) (page_id k : Nat)
    (h : k ≠ page_id) : find (erase m page_id) k = find m k := by
  rw [find_erase, if_neg h]

theorem find_emplace_some (m : List (Nat × PageMapEntry)) (page_id k : Nat)
    (e e1 : PageMapEntry) (h : find m k = some e) :
    find (emplace m page_id e1) k = some e := by
  rw [find_emplace, h]

/-- A `getPageInfo` on a page that is in the map writes the entry back as it was, with
one reference taken and dropped. -/
theorem getPageInfo_find_same (s : PageMap) (page_id : Nat) (info : PageInfo)
    (e : PageMapEntry) (hf : find s.map_ page_id = some e) :
    find (getPageInfo s page_id info).2.2.map_ page_id =
      some (dropEntryReference (fetchAdd e)).2 := by
  unfold getPageInfo
  rw [hf]
  exact find_release_same s page_id e _ hf

/-- A `getPage` on a page that is in the map writes the entry back as it was, with one
reference taken and dropped. -/
theorem getPage_find_same (d : Disk) (s : PageMap) (page_id : Nat) (buf : PageBuffer)
    (r : Bool × PageBuffer × PageMap) (e : PageMapEntry)
    (h : getPage d s page_id buf = some r) (hf : find s.map_ page_id = some e) :
    find r.2.2.map_ page_id = some (dropEntryReference (fetchAdd e)).2 := by
  unfold getPage at h
  rw [hf] at h
  simp only at h
  cases hb : (fetchAdd e).buffer with
  | some b =>
    rw [hb] at h
    simp only [Option.some.injEq] at h
    subst h
    exact find_release_same s page_id e _ hf
  | none =>
    rw [hb] at h
    simp only at h
    cases hl : loadPage d (fetchAdd e).value_size (fetchAdd e).disk_addr
        (fetchAdd e).disk_size buf with
    | none => rw [hl] at h; cases h
    | some q =>
      rw [hl] at h
      simp only [Option.some.injEq] at h
      subst h
      exact find_release_same s page_id e _ hf

/-- One call other than a flush or a delete of `page_id` keeps the page in the map; a
`modifyPage` that calls its function leaves it hot with the version incremented, any
other call leaves the version alone and a hot page hot. -/
theorem step_keeps (page_id : Nat) (op : Op) (s s1 : PageMap) (e : PageMapEntry)
    (hk : op.keeps page_id = true) (hf : find s.map_ page_id = some e)
    (hs : op.step s = some s1) :
    ∃ e1, find s1.map_ page_id = some e1 ∧
      (op.bump page_id s = 1 →
        e1.buffer.isSome = true ∧ e1.version = (e.version + 1) % UINT64) ∧
      (op.bump page_id s ≠ 1 →
        op.bump page_id s = 0 ∧ e1.version = e.version ∧
        (e.buffer.isSome = true → e1.buffer.isSome = true)) := by
  have same : ∀ t : PageMap, find t.map_ page_id = some e →
      op.bump page_id s = 0 →
      ∃ e1, find t.map_ page_id = some e1 ∧
        (op.bump page_id s = 1 →
          e1.buffer.isSome = true ∧ e1.version = (e.version + 1) % UINT64) ∧
        (op.bump page_id s ≠ 1 →
          op.bump page_id s = 0 ∧ e1.version = e.version ∧
          (e.buffer.isSome = true → e1.buffer.isSome = true)) := by
    intro t ht hb
    refine ⟨e, ht, ?_, ?_⟩
    · intro h1; rw [hb] at h1; cases h1
    · intro _; exact ⟨hb, rfl, fun h => h⟩
  have touched : ∀ t : PageMap,
      find t.map_ page_id = some (dropEntryReference (fetchAdd e)).2 →
      op.bump page_id s = 0 →
      ∃ e1, find t.map_ page_id = some e1 ∧
        (op.bump page_id s = 1 →
          e1.buffer.isSome = true ∧ e1.version = (e.version + 1) % UINT64) ∧
        (op.bump page_id s ≠ 1 →
          op.bump page_id s = 0 ∧ e1.version = e.version ∧
          (e.buffer.isSome = true → e1.buffer.isSome = true)) := by
    intro t ht hb
    refine ⟨_, ht, ?_, ?_⟩
    · intro h1; rw [hb] at h1; cases h1
    · intro _
      refine ⟨hb, ?_, ?_⟩
      · simp [dropEntryReference, fetchAdd]
      · simp [dropEntryReference, fetchAdd]
  cases op with
  | allocPage value_size =>
    simp only [Op.step, Option.some.injEq] at hs
    subst hs
    exact same _ (find_emplace_some _ _ _ e _ hf) rfl
  | addColdPage value_size disk_addr disk_size =>
    simp only [Op.step, Option.some.injEq] at hs
    subst hs
    exact same _ (find_emplace_some _ _ _ e _ hf) rfl
  | getPageInfo id info =>
    simp only [Op.step, Option.some.injEq] at hs
    subst hs
    by_cases hid : id = page_id
    · subst hid
      exact touched _ (getPageInfo_find_same s id info e hf) rfl
    · have hne : page_id ≠ id := fun h => hid h.symm
      refine same _ ?_ rfl
      rcases (getPageInfo_shape s id info).2 with h | ⟨entry, h⟩
      · rw [h]; exact hf
      · rw [h, find_store_other _ _ _ _ hne]; exact hf
  | getPage d id buf =>
    simp only [Op.step, Option.map_eq_some'] at hs
    obtain ⟨r, hr, rfl⟩ := hs
    by_cases hid : id = page_id
    · subst hid
      exact touched _ (getPage_find_same d s id buf r e hr hf) rfl
    · have hne : page_id ≠ id := fun h => hid h.symm
      refine same _ ?_ rfl
      rcases (getPage_shape d s id buf r hr).2 with h | ⟨entry, h⟩
      · rw [h]; exact hf
      · rw [h, find_store_other _ _ _ _ hne]; exact hf
  | flushPage id version disk_addr disk_size =>
    simp only [Op.step, Option.some.injEq] at hs
    subst hs
    have hid : id ≠ page_id := by simpa [Op.keeps] using hk
    have hne : page_id ≠ id := fun h => hid h.symm
    refine same _ ?_ rfl
    rcases (flushPage_shape s id version disk_addr disk_size).2 with h | ⟨entry, h⟩
    · rw [h]; exact hf
    · rw [h, find_store_other _ _ _ _ hne]; exact hf
  | deletePage id =>
    simp only [Op.step, Option.some.injEq] at hs
    subst hs
    have hid : id ≠ page_id := by simpa [Op.keeps] using hk
    have hne : page_id ≠ id := fun h => hid h.symm
    refine same _ ?_ rfl
    rcases (deletePage_shape s id).2 with h | h
    · rw [h]; exact hf
    · rw [h, find_erase_other _ _ _ hne]; exact hf
  | modifyPage d id fn =>
    simp only [Op.step, Option.map_eq_some'] at hs
    obtain ⟨r, hr, rfl⟩ := hs
    by_cases hid : id = page_id
    · subst hid
      cases hb : e.buffer with
      | some b =>
        have hbump : (Op.modifyPage d id fn).bump id s = 1 := by
          simp [Op.bump, reachesFn, hf, hb]
        rw [modifyPage_eq d s id fn e b hf (Or.inl hb)] at hr
        simp only [Option.some.injEq] at hr
        subst hr
        refine ⟨_, find_release_same s id e _ hf, ?_, ?_⟩
        · intro _; simp [dropEntryReference, fetchAdd]
        · intro h; exact absurd hbump h
      | none =>
        cases hl : loadPage d e.value_size e.disk_addr e.disk_size PageBuffer.empty with
        | none =>
          unfold modifyPage at hr
          rw [hf] at hr
          simp only [fetchAdd, hb, hl] at hr
          cases hr
        | some q =>
          obtain ⟨ok, b⟩ := q
          cases ok with
          | true =>
            have hbump : (Op.modifyPage d id fn).bump id s = 1 := by
              simp [Op.bump, reachesFn, hf, hb, hl]
            rw [modifyPage_eq d s id fn e b hf (Or.inr ⟨hb, hl⟩)] at hr
            simp only [Option.some.injEq] at hr
            subst hr
            refine ⟨_, find_release_same s id e _ hf, ?_, ?_⟩
            · intro _; simp [dropEntryReference, fetchAdd]
            · intro h; exact absurd hbump h
          | false =>
            have hbump : (Op.modifyPage d id fn).bump id s = 0 := by
              simp [Op.bump, reachesFn, hf, hb, hl]
            rw [modifyPage_eq_of_load_failure d s id fn e b hf hb hl] at hr
            simp only [Option.some.injEq] at hr
            subst hr
            refine ⟨{ fetchAdd e with buffer := none }, ?_, ?_, ?_⟩
            · simp [find_store, hf]
            · intro h1; rw [hbump] at h1; cases h1
            · intro _
              refine ⟨hbump, ?_, ?_⟩
              · simp [fetchAdd]
              · intro h; simp at h
    · have hne : page_id ≠ id := fun h => hid h.symm
      have hbump : (Op.modifyPage d id fn).bump page_id s = 0 := by
        simp [Op.bump, hid]
      refine same _ ?_ hbump
      rcases (modifyPage_shape d s id fn r hr).2 with h | ⟨entry, h⟩
      · rw [h]; exact hf
      · rw [h, find_store_other _ _ _ _ hne]; exact hf

theorem fnCalls_cons (page_id : Nat) (op : Op) (ops : List Op) (s s1 : PageMap)
    (h : op.step s = some s1) :
    fnCalls page_id (op :: ops) s = op.bump page_id s + fnCalls page_id ops s1 := by
  simp [fnCalls, h]

theorem bump_le_one (page_id : Nat) (op : Op) (s : PageMap) : op.bump page_id s ≤ 1 := by
  cases op <;> simp [Op.bump]
  split <;> omega

/-- Over an execution without flush or delete of `page_id` and without wrap of the
version counter, the version of the page grows by the number of `modifyPage` calls
that call their function, and the page ends hot when it started hot or one such call
was made. -/
theorem run_keeps (page_id : Nat) (ops : List Op) :
    ∀ (s s1 : PageMap) (e : PageMapEntry),
      (∀ op ∈ ops, op.keeps page_id = true) →
      find s.map_ page_id = some e →
      run ops s = some s1 →
      e.version + fnCalls page_id ops s < UINT64 →
      ∃ e1, find s1.map_ page_id = some e1 ∧
        e1.version = e.version + fnCalls page_id ops s ∧
        ((e.buffer.isSome = true ∨ 1 ≤ fnCalls page_id ops s) → e1.buffer.isSome = true) := by
  induction ops with
  | nil =>
    intro s s1 e _ hf hrun _
    simp only [run, Option.some.injEq] at hrun
    subst hrun
    refine ⟨e, hf, by simp [fnCalls], ?_⟩
    intro h
    rcases h with h | h
    · exact h
    · simp [fnCalls] at h
  | cons op ops ih =>
    intro s s2 e hk hf hrun hlt
    cases hstep : op.step s with
    | none => simp [run, hstep] at hrun
    | some s1 =>
      have hrun1 : run ops s1 = some s2 := by simpa [run, hstep] using hrun
      rw [fnCalls_cons page_id op ops s s1 hstep] at hlt ⊢
      obtain ⟨e1, hf1, hb1, hb0⟩ :=
        step_keeps page_id op s s1 e (hk op (List.mem_cons_self _ _)) hf hstep
      have hk1 : ∀ o ∈ ops, o.keeps page_id = true :=
        fun o ho => hk o (List.mem_cons_of_mem _ ho)
      by_cases hbump : op.bump page_id s = 1
      · obtain ⟨hhot, hver⟩ := hb1 hbump
        rw [hbump] at hlt ⊢
        have hv1 : e1.version = e.version + 1 := by
          rw [hver]; exact Nat.mod_eq_of_lt (by omega)
        obtain ⟨e2, hf2, hv2, hhot2⟩ := ih s1 s2 e1 hk1 hf1 hrun1 (by omega)
        exact ⟨e2, hf2, by omega, fun _ => hhot2 (Or.inl hhot)⟩
      · obtain ⟨hz, hver, hhot⟩ := hb0 hbump
        rw [hz] at hlt ⊢
        obtain ⟨e2, hf2, hv2, hhot2⟩ := ih s1 s2 e1 hk1 hf1 hrun1 (by omega)
        refine ⟨e2, hf2, by omega, ?_⟩
        intro h
        apply hhot2
        rcases h with h | h
        · exact Or.inl (hhot h)
        · exact Or.inr (by omega)

/-- C7 (amended): a flusher reads version `v` with `getPageInfo`; then calls follow, none
of them a flush or a delete of the page, among them at least one `modifyPage` of the
page that calls its function, and fewer than `2^64 - v` of those, so that the version
counter does not wrap; no call aborts. Then `flushPage(id, v, a, s)` is skipped: the
page is still hot, its version is greater than `v`, and its disk address and size are
what they were before the flush. -/
theorem stale_flush_skipped (ops : List Op) (s s1 : PageMap)
    (page_id v disk_addr disk_size : Nat) (info0 : PageInfo)
    (hobs : (getPageInfo s page_id info0).1 = true)
    (hver : (getPageInfo s page_id info0).2.1.version = v)
    (hkeeps : ∀ op ∈ ops, op.keeps page_id = true)
    (hrun : run ops (getPageInfo s page_id info0).2.2 = some s1)
    (hmod : 1 ≤ fnCalls page_id ops (getPageInfo s page_id info0).2.2)
    (hwrap : v + fnCalls page_id ops (getPageInfo s page_id info0).2.2 < UINT64) :
    ∃ e1 e2, find s1.map_ page_id = some e1 ∧
      find (flushPage s1 page_id v disk_addr disk_size).map_ page_id = some e2 ∧
      e2.buffer.isSome = true ∧
      (∀ info, (getPageInfo (flushPage s1 page_id v disk_addr disk_size)
        page_id info).2.1.is_dirty = true) ∧
      v < e2.version ∧
      e2.version = v + fnCalls page_id ops (getPageInfo s page_id info0).2.2 ∧
      e2.disk_addr = e1.disk_addr ∧ e2.disk_size = e1.disk_size := by
  cases hf : find s.map_ page_id with
  | none =>
    unfold getPageInfo at hobs
    rw [hf] at hobs
    cases hobs
  | some e =>
    have hf0 := getPageInfo_find_same s page_id info0 e hf
    have hv0 : (dropEntryReference (fetchAdd e)).2.version = v := by
      rw [← hver]
      unfold getPageInfo
      rw [hf]
      simp [dropEntryReference, fetchAdd]
    obtain ⟨e1, hf1, hv1, hhot1⟩ :=
      run_keeps page_id ops _ s1 _ hkeeps hf0 hrun (by rw [hv0]; exact hwrap)
    rw [hv0] at hv1
    have hne : v ≠ e1.version := by omega
    have hf2 := find_flushPage_stale s1 page_id v disk_addr disk_size e1 hf1 hne
    have hhot : e1.buffer.isSome = true := hhot1 (Or.inr hmod)
    refine ⟨e1, _, hf1, hf2, ?_, ?_, ?_, ?_, ?_, ?_⟩
    · simpa [dropEntryReference, fetchAdd] using hhot
    · intro info
      unfold getPageInfo
      rw [hf2]
      simpa [dropEntryReference, fetchAdd] using hhot
    · simp only [dropEntryReference, fetchAdd]
      omega
    · simp only [dropEntryReference, fetchAdd]
      omega
    · simp [dropEntryReference, fetchAdd]
    · simp [dropEntryReference, fetchAdd]

/-- C7 (amended), at the input of the second scenario: the flusher reads version 2, a
second `modifyPage` follows, and `flushPage(1, 2, 4096, 128)` is skipped. -/
theorem stale_flush_skipped_witness :
    ∃ e1 e2, find stTwice.map_ 1 = some e1 ∧
      find (flushPage stTwice 1 2 4096 128).map_ 1 = some e2 ∧
      e2.buffer.isSome = true ∧
      (∀ info, (getPageInfo (flushPage stTwice 1 2 4096 128) 1 info).2.1.is_dirty = true) ∧
      2 < e2.version ∧
      e2.version = 2 + fnCalls 1 [.modifyPage diskGood 1 (fnWrite 205)]
        (getPageInfo stModified 1 infoZero).2.2 ∧
      e2.disk_addr = e1.disk_addr ∧ e2.disk_size = e1.disk_size :=
  stale_flush_skipped [.modifyPage diskGood 1 (fnWrite 205)] stModified stTwice 1 2 4096 128
    infoZero (by decide) (by decide) (by decide) (by decide) (by decide) (by decide)

/-- C7 as stated fails: in a state reached from a new map by `allocPage(64)` and
`2^64 - 2` calls of `modifyPage`, the flusher reads version `2^64 - 1`, one `modifyPage`
that calls its function follows, and after `flushPage` with the version read the page
has version 0, which is not greater than the version read. -/
theorem stale_flush_version_wraps :
    modifyMany diskGood 1 fnFalse 18446744073709551614 stAlloc = stMaxVersion ∧
    (getPageInfo stMaxVersion 1 infoZero).1 = true ∧
    (getPageInfo stMaxVersion 1 infoZero).2.1.version = 18446744073709551615 ∧
    (∀ op ∈ opsOneModify, op.keeps 1 = true) ∧
    fnCalls 1 opsOneModify (getPageInfo stMaxVersion 1 infoZero).2.2 = 1 ∧
    ((run opsOneModify (getPageInfo stMaxVersion 1 infoZero).2.2).map
      (fun s1 => (find (flushPage s1 1 18446744073709551615 4096 128).map_ 1).map
        (fun e => (e.buffer.isSome, e.version, decide (18446744073709551615 < e.version))))) =
      some (some (true, 0, false)) := by
  refine ⟨stMaxVersion_reached, ?_⟩
  decide

/-! ## Deleted pages and fresh ids -/

theorem getPageInfo_notFound (s : PageMap) (page_id : Nat) (info : PageInfo)
    (h : find s.map_ page_id = none) : getPageInfo s page_id info = (false, info, s) := by
  unfold getPageInfo; rw [h]

theorem getPage_notFound (d : Disk) (s : PageMap) (page_id : Nat) (buf : PageBuffer)
    (h : find s.map_ page_id = none) : getPage d s page_id buf = some (false, buf, s) := by
  unfold getPage; rw [h]

theorem modifyPage_notFound (d : Disk) (s : PageMap) (page_id : Nat)
    (fn : PageBuffer → Bool × PageBuffer) (h : find s.map_ page_id = none) :
    modifyPage d s page_id fn = some (false, s) := by
  unfold modifyPage; rw [h]

theorem getPageInfo_fst (s : PageMap) (page_id : Nat) (info : PageInfo) :
    (getPageInfo s page_id info).1 = (find s.map_ page_id).isSome := by
  unfold getPageInfo
  cases find s.map_ page_id <;> rfl

theorem find_deletePage_same (s : PageMap) (page_id : Nat) :
    find (deletePage s page_id).map_ page_id = none := by
  cases hf : find s.map_ page_id with
  | none =>
    have : deletePage s page_id = s := by unfold deletePage; rw [hf]
    rw [this]; exact hf
  | some e =>
    have : (deletePage s page_id).map_ = erase s.map_ page_id := by
      unfold deletePage
      rw [hf]
      simp only
      split <;> rfl
    rw [this, find_erase]
    simp

/-- A call that is not an allocation puts no new id into the map. -/
theorem step_other_find (op : Op) (s s1 : PageMap) (k : Nat) (h : op.step s = some s1)
    (ha : op.isAlloc = false) (hk : find s1.map_ k ≠ none) : find s.map_ k ≠ none := by
  obtain ⟨_, _, hm⟩ := step_shape_other op s s1 h ha
  rcases hm with hm | ⟨id, entry, hm⟩ | ⟨id, hm⟩
  · rw [hm] at hk; exact hk
  · rw [hm, find_store] at hk
    intro h0
    rw [h0] at hk
    simp at hk
  · rw [hm, find_erase] at hk
    intro h0
    rw [h0] at hk
    simp at hk

/-- An allocation puts at most the id it returns into the map. -/
theorem step_alloc_find (op : Op) (s s1 : PageMap) (k : Nat) (h : op.step s = some s1)
    (ha : op.isAlloc = true) (hk : find s1.map_ k ≠ none) :
    find s.map_ k ≠ none ∨ k = (s.page_id_ + 1) % UINT64 := by
  obtain ⟨_, _, entry, hm⟩ := step_shape_alloc op s s1 h ha
  rw [hm, find_emplace] at hk
  by_cases h0 : find s.map_ k = none
  · right
    rw [h0] at hk
    by_contra hne
    simp [hne] at hk
  · exact Or.inl h0

/-- While the id counter does not wrap, an execution that does not abort advances the
counter by the number of its allocations, and every id in the map at its end was in
the map at its start or lies above the counter it started with. -/
theorem run_ids_bounded (ops : List Op) :
    ∀ s s1 : PageMap, run ops s = some s1 → s.page_id_ + allocCount ops < UINT64 →
      s1.page_id_ = s.page_id_ + allocCount ops ∧
      ∀ k, find s1.map_ k ≠ none →
        find s.map_ k ≠ none ∨ (s.page_id_ < k ∧ k ≤ s1.page_id_) := by
  induction ops with
  | nil =>
    intro s s1 hrun _
    simp only [run, Option.some.injEq] at hrun
    subst hrun
    exact ⟨by simp [allocCount], fun k hk => Or.inl hk⟩
  | cons op ops ih =>
    intro s s2 hrun hlt
    rw [allocCount_cons] at hlt ⊢
    cases hstep : op.step s with
    | none => simp [run, hstep] at hrun
    | some s1 =>
      have hrun1 : run ops s1 = some s2 := by simpa [run, hstep] using hrun
      by_cases ha : op.isAlloc = true
      · obtain ⟨_, hpid, _⟩ := step_shape_alloc op s s1 hstep ha
        simp only [if_pos ha] at hlt ⊢
        have hmod : (s.page_id_ + 1) % UINT64 = s.page_id_ + 1 :=
          Nat.mod_eq_of_lt (by omega)
        rw [hmod] at hpid
        obtain ⟨h1, h2⟩ := ih s1 s2 hrun1 (by omega)
        refine ⟨by omega, ?_⟩
        intro k hk
        rcases h2 k hk with h | h
        · rcases step_alloc_find op s s1 k hstep ha h with h' | h'
          · exact Or.inl h'
          · right
            rw [hmod] at h'
            omega
        · right; omega
      · have ha0 : op.isAlloc = false := by simpa using ha
        obtain ⟨_, hpid, _⟩ := step_shape_other op s s1 hstep ha0
        simp only [if_neg ha, Nat.zero_add] at hlt ⊢
        obtain ⟨h1, h2⟩ := ih s1 s2 hrun1 (by omega)
        refine ⟨by omega, ?_⟩
        intro k hk
        rcases h2 k hk with h | h
        · exact Or.inl (step_other_find op s s1 k hstep ha0 h)
        · right; omega

/-- C9 (amended): in a state reached from a new map, after `deletePage(id)` on a page
that is in the map the id is not in the map, and it stays out of it over any further
calls, so that `getPageInfo`, `getPage` and `modifyPage` on it return false, as long as
fewer than `2^64` allocations are made on the map in total. -/
theorem deleted_page_stays_gone (ops1 ops2 : List Op) (s s2 : PageMap) (page_id : Nat)
    (hreach : run ops1 PageMap.init = some s)
    (hpresent : find s.map_ page_id ≠ none)
    (hcount : allocCount ops1 + allocCount ops2 < UINT64)
    (hrun : run ops2 (deletePage s page_id) = some s2) :
    find (deletePage s page_id).map_ page_id = none ∧
    find s2.map_ page_id = none ∧
    (∀ info, getPageInfo s2 page_id info = (false, info, s2)) ∧
    (∀ d buf, getPage d s2 page_id buf = some (false, buf, s2)) ∧
    (∀ d fn, modifyPage d s2 page_id fn = some (false, s2)) := by
  have h0 : PageMap.init.page_id_ + allocCount ops1 < UINT64 := by
    simp only [PageMap.init]; omega
  obtain ⟨hp, hkeys⟩ := run_ids_bounded ops1 PageMap.init s hreach h0
  have hle : page_id ≤ s.page_id_ := by
    rcases hkeys page_id hpresent with h | h
    · exact absurd rfl h
    · exact h.2
  have hp0 : s.page_id_ = allocCount ops1 := by
    simpa [PageMap.init] using hp
  have hdel := find_deletePage_same s page_id
  have hpd : (deletePage s page_id).page_id_ = s.page_id_ := (deletePage_shape s page_id).1
  obtain ⟨_, hkeys2⟩ := run_ids_bounded ops2 (deletePage s page_id) s2 hrun (by omega)
  have hgone : find s2.map_ page_id = none := by
    by_contra hne
    rcases hkeys2 page_id hne with h | h
    · exact h hdel
    · omega
  exact ⟨hdel, hgone, fun info => getPageInfo_notFound s2 page_id info hgone,
    fun d buf => getPage_notFound d s2 page_id buf hgone,
    fun d fn => modifyPage_notFound d s2 page_id fn hgone⟩

/-- C9 (amended), at a concrete input: page 1 is deleted and two more pages are
allocated. -/
theorem deleted_page_stays_gone_witness :
    find (deletePage stTwoPages 1).map_ 1 = none ∧
    find stAfterDelete.map_ 1 = none ∧
    (∀ info, getPageInfo stAfterDelete 1 info = (false, info, stAfterDelete)) ∧
    (∀ d buf, getPage d stAfterDelete 1 buf = some (false, buf, stAfterDelete)) ∧
    (∀ d fn, modifyPage d stAfterDelete 1 fn = some (false, stAfterDelete)) :=
  deleted_page_stays_gone [.allocPage 64, .addColdPage 64 4096 128]
    [.allocPage 32, .addColdPage 16 8192 64] stTwoPages stAfterDelete 1
    (by decide) (by decide) (by decide) (by decide)

/-! ## Many allocations in a row -/

theorem allocPage_fst (s : PageMap) (value_size : Nat) :
    (allocPage s value_size).1 = (s.page_id_ + 1) % UINT64 := rfl

theorem allocPage_page_id (s : PageMap) (value_size : Nat) :
    (allocPage s value_size).2.page_id_ = (s.page_id_ + 1) % UINT64 := rfl

theorem allocPage_map (s : PageMap) (value_size : Nat) :
    (allocPage s value_size).2.map_ =
      emplace s.map_ ((s.page_id_ + 1) % UINT64)
        { refcount := 1, buffer := some (PageBuffer.ofSize value_size), version := 1,
          value_size := value_size, disk_addr := 0, disk_size := 0 } := rfl

theorem allocMany_zero (value_size : Nat) (s : PageMap) : allocMany value_size 0 s = s := rfl

theorem allocMany_succ (value_size n : Nat) (s : PageMap) :
    allocMany value_size (n + 1) s = (allocPage (allocMany value_size n s) value_size).2 := by
  unfold allocMany
  rw [Function.iterate_succ_apply']

theorem allocMany_page_id_mod (value_size n : Nat) (s : PageMap) :
    (allocMany value_size n s).page_id_ % UINT64 = (s.page_id_ + n) % UINT64 := by
  induction n with
  | zero => rw [allocMany_zero, Nat.add_zero]
  | succ n ih =>
    rw [allocMany_succ, allocPage_page_id, Nat.mod_mod, Nat.add_mod, ih, ← Nat.add_mod,
      Nat.add_assoc]

/-- After `n > 0` allocations in a row the id counter is its old value plus `n`,
modulo `2^64`. -/
theorem allocMany_page_id (value_size n : Nat) (s : PageMap) (hn : 0 < n) :
    (allocMany value_size n s).page_id_ = (s.page_id_ + n) % UINT64 := by
  cases n with
  | zero => cases hn
  | succ n =>
    rw [allocMany_succ, allocPage_page_id, Nat.add_mod, allocMany_page_id_mod,
      ← Nat.add_mod, Nat.add_assoc]

/-- Allocations never replace an entry that is in the map. -/
theorem allocMany_find_some (value_size n k : Nat) (s : PageMap) (e : PageMapEntry)
    (h : find s.map_ k = some e) : find (allocMany value_size n s).map_ k = some e := by
  induction n with
  | zero => rw [allocMany_zero]; exact h
  | succ n ih => rw [allocMany_succ, allocPage_map]; exact find_emplace_some _ _ _ e _ ih

/-- After `n > 0` allocations in a row the id returned last is in the map. -/
theorem allocMany_find_last (value_size n : Nat) (s : PageMap) (hn : 0 < n) :
    find (allocMany value_size n s).map_ (allocMany value_size n s).page_id_ ≠ none := by
  cases n with
  | zero => cases hn
  | succ n =>
    rw [allocMany_succ, allocPage_page_id, allocPage_map, find_emplace]
    cases find (allocMany value_size n s).map_
      (((allocMany value_size n s).page_id_ + 1) % UINT64) <;> simp

/-- C9 as stated fails: on a new map `allocPage(64)` returns id 1 and `deletePage(1)`
removes it; after `2^64` further `allocPage(64)` calls the id counter has wrapped, id 1
has been handed out again and `getPageInfo(1)` returns true. -/
theorem deleted_id_returned_after_wrap :
    run [.allocPage 64] PageMap.init = some stAlloc ∧
    find stAlloc.map_ 1 ≠ none ∧
    find (deletePage stAlloc 1).map_ 1 = none ∧
    (allocMany 64 UINT64 (deletePage stAlloc 1)).page_id_ = 1 ∧
    (getPageInfo (allocMany 64 UINT64 (deletePage stAlloc 1)) 1 infoZero).1 = true := by
  have hp : (allocMany 64 UINT64 (deletePage stAlloc 1)).page_id_ = 1 := by
    rw [allocMany_page_id 64 UINT64 (deletePage stAlloc 1) (by decide)]
    decide
  have hlast := allocMany_find_last 64 UINT64 (deletePage stAlloc 1) (by decide)
  rw [hp] at hlast
  refine ⟨by decide, by decide, by decide, hp, ?_⟩
  rw [getPageInfo_fst]
  cases hf : find (allocMany 64 UINT64 (deletePage stAlloc 1)).map_ 1 with
  | none => exact absurd hf hlast
  | some e => rfl

/-! ## Allocation -/

theorem getPage_hot (d : Disk) (s : PageMap) (page_id : Nat) (buf : PageBuffer)
    (e : PageMapEntry) (b : PageBuffer) (hf : find s.map_ page_id = some e)
    (hb : e.buffer = some b) :
    getPage d s page_id buf = some (true, b, release s page_id (fetchAdd e)) := by
  unfold getPage
  rw [hf]
  simp only [fetchAdd, hb]

/-- C10 (amended): when the id about to be returned, `(page_id_ + 1) mod 2^64`, is not
yet in the map, `allocPage(value_size)` inserts under the returned id a hot entry with
the buffer `PageBuffer(value_size)`, version 1, refcount 1 and disk fields 0;
`getPageInfo` then returns version 1, dirty, address 0 and size 0, and `getPage` returns
a copy of `PageBuffer(value_size)`. -/
theorem allocPage_post (s : PageMap) (value_size : Nat)
    (hfresh : find s.map_ ((s.page_id_ + 1) % UINT64) = none) :
    find (allocPage s value_size).2.map_ (allocPage s value_size).1 =
      some { refcount := 1, buffer := some (PageBuffer.ofSize value_size), version := 1,
             value_size := value_size, disk_addr := 0, disk_size := 0 } ∧
    (∀ info,
      (getPageInfo (allocPage s value_size).2 (allocPage s value_size).1 info).1 = true ∧
      (getPageInfo (allocPage s value_size).2 (allocPage s value_size).1 info).2.1 =
        { version := 1, is_dirty := true, disk_addr := 0, disk_size := 0 }) ∧
    (∀ d buf, ∃ s2,
      getPage d (allocPage s value_size).2 (allocPage s value_size).1 buf =
        some (true, PageBuffer.ofSize value_size, s2)) := by
  have hf : find (allocPage s value_size).2.map_ (allocPage s value_size).1 =
      some { refcount := 1, buffer := some (PageBuffer.ofSize value_size), version := 1,
             value_size := value_size, disk_addr := 0, disk_size := 0 } := by
    rw [allocPage_map, allocPage_fst, find_emplace, hfresh]
    simp
  refine ⟨hf, ?_, ?_⟩
  · intro info
    unfold getPageInfo
    rw [hf]
    simp [fetchAdd]
  · intro d buf
    exact ⟨_, getPage_hot d _ _ buf _ _ hf rfl⟩

/-- C10 (amended), at a concrete input: `allocPage(64)` on a new map. -/
theorem allocPage_post_witness :
    find (allocPage PageMap.init 64).2.map_ (allocPage PageMap.init 64).1 =
      some { refcount := 1, buffer := some (PageBuffer.ofSize 64), version := 1,
             value_size := 64, disk_addr := 0, disk_size := 0 } ∧
    (∀ info,
      (getPageInfo (allocPage PageMap.init 64).2 (allocPage PageMap.init 64).1 info).1 =
        true ∧
      (getPageInfo (allocPage PageMap.init 64).2 (allocPage PageMap.init 64).1 info).2.1 =
        { version := 1, is_dirty := true, disk_addr := 0, disk_size := 0 }) ∧
    (∀ d buf, ∃ s2,
      getPage d (allocPage PageMap.init 64).2 (allocPage PageMap.init 64).1 buf =
        some (true, PageBuffer.ofSize 64, s2)) :=
  allocPage_post PageMap.init 64 (by decide)

/-- In a state reached from a new map with fewer than `2^64 - 1` allocations the id
about to be returned is not in the map. -/
theorem next_id_fresh (ops : List Op) (s : PageMap) (hreach : run ops PageMap.init = some s)
    (hcount : allocCount ops + 1 < UINT64) :
    find s.map_ ((s.page_id_ + 1) % UINT64) = none := by
  have h0 : PageMap.init.page_id_ + allocCount ops < UINT64 := by
    simp only [PageMap.init]; omega
  obtain ⟨hp, hkeys⟩ := run_ids_bounded ops PageMap.init s hreach h0
  have hp0 : s.page_id_ = allocCount ops := by simpa [PageMap.init] using hp
  rw [Nat.mod_eq_of_lt (by omega)]
  by_contra hne
  rcases hkeys _ hne with h | h
  · exact h rfl
  · omega

/-- C10 as stated fails: on a new map `allocPage(64)` returns id 1; after `2^64 - 1`
further `allocPage(64)` calls the id counter is 0, so `allocPage(32)` returns id 1
again, `emplace` inserts nothing, and the entry under id 1 still has the buffer
`PageBuffer(64)` and value size 64. -/
theorem allocPage_returns_used_id_after_wrap :
    run [.allocPage 64] PageMap.init = some stAlloc ∧
    (allocPage (allocMany 64 18446744073709551615 stAlloc) 32).1 = 1 ∧
    find (allocPage (allocMany 64 18446744073709551615 stAlloc) 32).2.map_ 1 =
      some { refcount := 1, buffer := some (PageBuffer.ofSize 64), version := 1,
             value_size := 64, disk_addr := 0, disk_size := 0 } ∧
    find (allocPage (allocMany 64 18446744073709551615 stAlloc) 32).2.map_ 1 ≠
      some { refcount := 1, buffer := some (PageBuffer.ofSize 32), version := 1,
             value_size := 32, disk_addr := 0, disk_size := 0 } := by
  have hp : (allocMany 64 18446744073709551615 stAlloc).page_id_ = 0 := by
    rw [allocMany_page_id 64 18446744073709551615 stAlloc (by decide)]
    decide
  have hold : find (allocMany 64 18446744073709551615 stAlloc).map_ 1 =
      some { refcount := 1, buffer := some (PageBuffer.ofSize 64), version := 1,
             value_size := 64, disk_addr := 0, disk_size := 0 } :=
    allocMany_find_some 64 18446744073709551615 1 stAlloc _ (by decide)
  have hfind : find (allocPage (allocMany 64 18446744073709551615 stAlloc) 32).2.map_ 1 =
      some { refcount := 1, buffer := some (PageBuffer.ofSize 64), version := 1,
             value_size := 64, disk_addr := 0, disk_size := 0 } := by
    rw [allocPage_map]
    exact find_emplace_some _ _ _ _ _ hold
  refine ⟨by decide, ?_, hfind, ?_⟩
  · rw [allocPage_fst, hp]
    decide
  · rw [hfind]
    decide

/-! ## Importing a cold page -/

theorem addColdPage_fst (s : PageMap) (value_size disk_addr disk_size : Nat) :
    (addColdPage s value_size disk_addr disk_size).1 = (s.page_id_ + 1) % UINT64 := rfl

theorem addColdPage_map (s : PageMap) (value_size disk_addr disk_size : Nat) :
    (addColdPage s value_size disk_addr disk_size).2.map_ =
      emplace s.map_ ((s.page_id_ + 1) % UINT64)
        { refcount := 1, buffer := none, version := 1, value_size := value_size,
          disk_addr := disk_addr, disk_size := disk_size } := rfl

/-- The result of `getPageInfo` on a page that is in the map. -/
theorem getPageInfo_found (s : PageMap) (page_id : Nat) (info : PageInfo) (e : PageMapEntry)
    (h : find s.map_ page_id = some e) :
    getPageInfo s page_id info =
      (true,
        { version := e.version, is_dirty := e.buffer.isSome, disk_addr := e.disk_addr,
          disk_size := e.disk_size },
        release s page_id (fetchAdd e)) := by
  unfold getPageInfo
  rw [h]
  rfl

/-- C11 (amended): when the id about to be returned, `(page_id_ + 1) mod 2^64`, is not
yet in the map, `addColdPage(value_size, disk_addr, disk_size)` with positive disk
address and size inserts under the returned id a cold entry without buffer, with
version 1, refcount 1 and the disk fields as given; `getPageInfo` then returns version
1, not dirty, and the same disk address and size. -/
theorem addColdPage_post (s : PageMap) (value_size disk_addr disk_size : Nat)
    (_haddr : 0 < disk_addr) (_hsize : 0 < disk_size)
    (hfresh : find s.map_ ((s.page_id_ + 1) % UINT64) = none) :
    find (addColdPage s value_size disk_addr disk_size).2.map_
        (addColdPage s value_size disk_addr disk_size).1 =
      some { refcount := 1, buffer := none, version := 1, value_size := value_size,
             disk_addr := disk_addr, disk_size := disk_size } ∧
    ∀ info,
      (getPageInfo (addColdPage s value_size disk_addr disk_size).2
        (addColdPage s value_size disk_addr disk_size).1 info).1 = true ∧
      (getPageInfo (addColdPage s value_size disk_addr disk_size).2
        (addColdPage s value_size disk_addr disk_size).1 info).2.1 =
        { version := 1, is_dirty := false, disk_addr := disk_addr,
          disk_size := disk_size } := by
  have hf : find (addColdPage s value_size disk_addr disk_size).2.map_
        (addColdPage s value_size disk_addr disk_size).1 =
      some { refcount := 1, buffer := none, version := 1, value_size := value_size,
             disk_addr := disk_addr, disk_size := disk_size } := by
    rw [addColdPage_map, addColdPage_fst, find_emplace, hfresh]
    simp
  refine ⟨hf, ?_⟩
  intro info
  unfold getPageInfo
  rw [hf]
  simp [fetchAdd]

/-- C11 (amended), at the input of the third scenario: `addColdPage(64, 4096, 128)` on a
new map. -/
theorem addColdPage_post_witness :
    find (addColdPage PageMap.init 64 4096 128).2.map_
        (addColdPage PageMap.init 64 4096 128).1 =
      some { refcount := 1, buffer := none, version := 1, value_size := 64,
             disk_addr := 4096, disk_size := 128 } ∧
    ∀ info,
      (getPageInfo (addColdPage PageMap.init 64 4096 128).2
        (addColdPage PageMap.init 64 4096 128).1 info).1 = true ∧
      (getPageInfo (addColdPage PageMap.init 64 4096 128).2
        (addColdPage PageMap.init 64 4096 128).1 info).2.1 =
        { version := 1, is_dirty := false, disk_addr := 4096, disk_size := 128 } :=
  addColdPage_post PageMap.init 64 4096 128 (by decide) (by decide) (by decide)

/-- C11 as stated fails: on a new map `allocPage(64)` returns id 1; after `2^64 - 1`
further `allocPage(64)` calls the id counter is 0, so `addColdPage(64, 4096, 128)`
returns id 1 again, `emplace` inserts nothing, and the entry under id 1 is still the hot
one: `getPageInfo(1)` reports dirty with disk address 0. -/
theorem addColdPage_returns_used_id_after_wrap :
    run [.allocPage 64] PageMap.init = some stAlloc ∧
    (addColdPage (allocMany 64 18446744073709551615 stAlloc) 64 4096 128).1 = 1 ∧
    find (addColdPage (allocMany 64 18446744073709551615 stAlloc) 64 4096 128).2.map_ 1 =
      some { refcount := 1, buffer := some (PageBuffer.ofSize 64), version := 1,
             value_size := 64, disk_addr := 0, disk_size := 0 } ∧
    (getPageInfo (addColdPage (allocMany 64 18446744073709551615 stAlloc) 64 4096 128).2
      1 infoZero).2.1 =
      { version := 1, is_dirty := true, disk_addr := 0, disk_size := 0 } := by
  have hp : (allocMany 64 18446744073709551615 stAlloc).page_id_ = 0 := by
    rw [allocMany_page_id 64 18446744073709551615 stAlloc (by decide)]
    decide
  have hold : find (allocMany 64 18446744073709551615 stAlloc).map_ 1 =
      some { refcount := 1, buffer := some (PageBuffer.ofSize 64), version := 1,
             value_size := 64, disk_addr := 0, disk_size := 0 } :=
    allocMany_find_some 64 18446744073709551615 1 stAlloc _ (by decide)
  have hfind :
      find (addColdPage (allocMany 64 18446744073709551615 stAlloc) 64 4096 128).2.map_ 1 =
      some { refcount := 1, buffer := some (PageBuffer.ofSize 64), version := 1,
             value_size := 64, disk_addr := 0, disk_size := 0 } := by
    rw [addColdPage_map]
    exact find_emplace_some _ _ _ _ _ hold
  refine ⟨by decide, ?_, hfind, ?_⟩
  · rw [addColdPage_fst, hp]
    decide
  · rw [getPageInfo_found _ 1 infoZero _ hfind]
    rfl

/-! ## What one call does to one entry -/

/-- The entry found after a flush whose version argument equals its version. -/
theorem find_flushPage_match (s : PageMap) (page_id version disk_addr disk_size : Nat)
    (e : PageMapEntry) (hfind : find s.map_ page_id = some e)
    (hver : e.version = version) :
    find (flushPage s page_id version disk_addr disk_size).map_ page_id =
      some (dropEntryReference
        { fetchAdd e with disk_addr := disk_addr, disk_size := disk_size,
                          buffer := none }).2 := by
  unfold flushPage
  rw [hfind]
  simp only [fetchAdd, hver, if_true]
  exact find_release_same s page_id e _ hfind

/-- A call on another page, or a call that finds nothing, leaves the lookup of `k` as
it is. -/
theorem find_of_shape (s : PageMap) (m1 : List (Nat × PageMapEntry)) (id k : Nat)
    (hne : k ≠ id) (h : m1 = s.map_ ∨ ∃ entry, m1 = store s.map_ id entry) :
    find m1 k = find s.map_ k := by
  rcases h with h | ⟨entry, h⟩
  · rw [h]
  · rw [h, find_store_other _ _ _ _ hne]

/-- Every entry found in the map after a call either has the fields of the entry found
under the same id before the call, or was modified, flushed or created by the call. -/
theorem step_entry (op : Op) (s s1 : PageMap) (k : Nat) (e1 : PageMapEntry)
    (hs : op.step s = some s1) (hf1 : find s1.map_ k = some e1) :
    (∃ e, find s.map_ k = some e ∧ e1.buffer = e.buffer ∧ e1.version = e.version ∧
      e1.value_size = e.value_size ∧ e1.disk_addr = e.disk_addr ∧
      e1.disk_size = e.disk_size) ∨
    (∃ e d fn, op = .modifyPage d k fn ∧ find s.map_ k = some e ∧
      e1.buffer.isSome = true ∧ e1.version = (e.version + 1) % UINT64 ∧
      e1.value_size = e.value_size ∧ e1.disk_addr = e.disk_addr ∧
      e1.disk_size = e.disk_size) ∨
    (∃ e disk_addr disk_size, op = .flushPage k e.version disk_addr disk_size ∧
      find s.map_ k = some e ∧ e1.buffer = none ∧ e1.version = e.version ∧
      e1.value_size = e.value_size ∧ e1.disk_addr = disk_addr ∧
      e1.disk_size = disk_size) ∨
    (find s.map_ k = none ∧
      ((∃ value_size, op = .allocPage value_size ∧
          e1 = { refcount := 1, buffer := some (PageBuffer.ofSize value_size),
                 version := 1, value_size := value_size, disk_addr := 0,
                 disk_size := 0 }) ∨
        ∃ value_size disk_addr disk_size,
          op = .addColdPage value_size disk_addr disk_size ∧
          e1 = { refcount := 1, buffer := none, version := 1, value_size := value_size,
                 disk_addr := disk_addr, disk_size := disk_size })) := by
  have same : ∀ e, find s.map_ k = some e → e1.buffer = e.buffer →
      e1.version = e.version → e1.value_size = e.value_size →
      e1.disk_addr = e.disk_addr → e1.disk_size = e.disk_size →
      (∃ e, find s.map_ k = some e ∧ e1.buffer = e.buffer ∧ e1.version = e.version ∧
        e1.value_size = e.value_size ∧ e1.disk_addr = e.disk_addr ∧
        e1.disk_size = e.disk_size) :=
    fun e h1 h2 h3 h4 h5 h6 => ⟨e, h1, h2, h3, h4, h5, h6⟩
  have unchanged : find s1.map_ k = find s.map_ k →
      (∃ e, find s.map_ k = some e ∧ e1.buffer = e.buffer ∧ e1.version = e.version ∧
        e1.value_size = e.value_size ∧ e1.disk_addr = e.disk_addr ∧
        e1.disk_size = e.disk_size) := by
    intro h
    rw [hf1] at h
    exact ⟨e1, h.symm, rfl, rfl, rfl, rfl, rfl⟩
  have touched : ∀ e, find s.map_ k = some e →
      find s1.map_ k = some (dropEntryReference (fetchAdd e)).2 →
      (∃ e, find s.map_ k = some e ∧ e1.buffer = e.buffer ∧ e1.version = e.version ∧
        e1.value_size = e.value_size ∧ e1.disk_addr = e.disk_addr ∧
        e1.disk_size = e.disk_size) := by
    intro e he h
    rw [hf1] at h
    simp only [Option.some.injEq] at h
    subst h
    exact ⟨e, he, by simp [dropEntryReference, fetchAdd]⟩
  cases op with
  | allocPage value_size =>
    simp only [Op.step, Option.some.injEq] at hs
    subst hs
    rw [allocPage_map, find_emplace] at hf1
    rcases Option.eq_none_or_eq_some (find s.map_ k) with hk | ⟨x, hk⟩
    · rw [hk] at hf1
      simp only at hf1
      split at hf1
      · simp only [Option.some.injEq] at hf1
        exact Or.inr (Or.inr (Or.inr ⟨hk, Or.inl ⟨value_size, rfl, hf1.symm⟩⟩))
      · cases hf1
    · rw [hk] at hf1
      simp only [Option.some.injEq] at hf1
      subst hf1
      exact Or.inl ⟨_, hk, rfl, rfl, rfl, rfl, rfl⟩
  | addColdPage value_size disk_addr disk_size =>
    simp only [Op.step, Option.some.injEq] at hs
    subst hs
    rw [addColdPage_map, find_emplace] at hf1
    rcases Option.eq_none_or_eq_some (find s.map_ k) with hk | ⟨x, hk⟩
    · rw [hk] at hf1
      simp only at hf1
      split at hf1
      · simp only [Option.some.injEq] at hf1
        exact Or.inr (Or.inr (Or.inr
          ⟨hk, Or.inr ⟨value_size, disk_addr, disk_size, rfl, hf1.symm⟩⟩))
      · cases hf1
    · rw [hk] at hf1
      simp only [Option.some.injEq] at hf1
      subst hf1
      exact Or.inl ⟨_, hk, rfl, rfl, rfl, rfl, rfl⟩
  | getPageInfo id info =>
    simp only [Op.step, Option.some.injEq] at hs
    subst hs
    by_cases hid : k = id
    · subst hid
      rcases Option.eq_none_or_eq_some (find s.map_ k) with hk | ⟨e, hk⟩
      · rw [getPageInfo_notFound s k info hk] at hf1
        rw [hk] at hf1; cases hf1
      · exact Or.inl (touched e hk (getPageInfo_find_same s k info e hk))
    · exact Or.inl (unchanged (find_of_shape s _ id k hid (getPageInfo_shape s id info).2))
  | getPage d id buf =>
    simp only [Op.step, Option.map_eq_some'] at hs
    obtain ⟨r, hr, rfl⟩ := hs
    by_cases hid : k = id
    · subst hid
      rcases Option.eq_none_or_eq_some (find s.map_ k) with hk | ⟨e, hk⟩
      · rw [getPage_notFound d s k buf hk] at hr
        simp only [Option.some.injEq] at hr
        subst hr
        rw [hk] at hf1; cases hf1
      · exact Or.inl (touched e hk (getPage_find_same d s k buf r e hr hk))
    · exact Or.inl (unchanged (find_of_shape s _ id k hid (getPage_shape d s id buf r hr).2))
  | flushPage id version disk_addr disk_size =>
    simp only [Op.step, Option.some.injEq] at hs
    subst hs
    by_cases hid : k = id
    · subst hid
      rcases Option.eq_none_or_eq_some (find s.map_ k) with hk | ⟨e, hk⟩
      · have : flushPage s k version disk_addr disk_size = s := by
          unfold flushPage; rw [hk]
        rw [this, hk] at hf1; cases hf1
      · by_cases hv : e.version = version
        · rw [find_flushPage_match s k version disk_addr disk_size e hk hv] at hf1
          simp only [Option.some.injEq] at hf1
          subst hf1
          subst hv
          exact Or.inr (Or.inr (Or.inl
            ⟨e, disk_addr, disk_size, rfl, hk, by simp [dropEntryReference, fetchAdd]⟩))
        · exact Or.inl (touched e hk
            (find_flushPage_stale s k version disk_addr disk_size e hk
              (fun h => hv h.symm)))
    · exact Or.inl (unchanged (find_of_shape s _ id k hid
        (flushPage_shape s id version disk_addr disk_size).2))
  | deletePage id =>
    simp only [Op.step, Option.some.injEq] at hs
    subst hs
    by_cases hid : k = id
    · subst hid
      rw [find_deletePage_same] at hf1; cases hf1
    · refine Or.inl (unchanged ?_)
      rcases (deletePage_shape s id).2 with h | h
      · rw [h]
      · rw [h, find_erase_other _ _ _ hid]
  | modifyPage d id fn =>
    simp only [Op.step, Option.map_eq_some'] at hs
    obtain ⟨r, hr, rfl⟩ := hs
    by_cases hid : k = id
    · subst hid
      rcases Option.eq_none_or_eq_some (find s.map_ k) with hk | ⟨e, hk⟩
      · rw [modifyPage_notFound d s k fn hk] at hr
        simp only [Option.some.injEq] at hr
        subst hr
        rw [hk] at hf1; cases hf1
      · have modified : ∀ b, e.buffer = some b ∨
            (e.buffer = none ∧
              loadPage d e.value_size e.disk_addr e.disk_size PageBuffer.empty =
                some (true, b)) →
            (∃ e0 d0 fn0, Op.modifyPage d k fn = .modifyPage d0 k fn0 ∧
              find s.map_ k = some e0 ∧
              e1.buffer.isSome = true ∧ e1.version = (e0.version + 1) % UINT64 ∧
              e1.value_size = e0.value_size ∧ e1.disk_addr = e0.disk_addr ∧
              e1.disk_size = e0.disk_size) := by
          intro b hb
          rw [modifyPage_eq d s k fn e b hk hb] at hr
          simp only [Option.some.injEq] at hr
          subst hr
          rw [find_release_same s k e _ hk] at hf1
          simp only [Option.some.injEq] at hf1
          subst hf1
          exact ⟨e, d, fn, rfl, hk, by simp [dropEntryReference, fetchAdd]⟩
        rcases Option.eq_none_or_eq_some e.buffer with hb | ⟨b, hb⟩
        · rcases Option.eq_none_or_eq_some
            (loadPage d e.value_size e.disk_addr e.disk_size PageBuffer.empty)
            with hl | ⟨q, hl⟩
          · unfold modifyPage at hr
            rw [hk] at hr
            simp only [fetchAdd, hb, hl] at hr
            cases hr
          · obtain ⟨ok, b⟩ := q
            cases ok with
            | true => exact Or.inr (Or.inl (modified b (Or.inr ⟨hb, hl⟩)))
            | false =>
              rw [modifyPage_eq_of_load_failure d s k fn e b hk hb hl] at hr
              simp only [Option.some.injEq] at hr
              subst hr
              simp only [find_store, if_true, hk, Option.map_some',
                Option.some.injEq] at hf1
              subst hf1
              exact Or.inl ⟨e, hk, by simp [fetchAdd, hb]⟩
        · exact Or.inr (Or.inl (modified b (Or.inl hb)))
    · exact Or.inl (unchanged (find_of_shape s _ id k hid
        (modifyPage_shape d s id fn r hr).2))

/-! ## Hot and cold entries -/

/-- When every `addColdPage` and every `flushPage` call passes a positive disk address
and size, an execution keeps the property that every entry without buffer has a
positive disk address and size. -/
theorem run_cold_has_disk (ops : List Op) :
    ∀ s s1 : PageMap,
      (∀ op ∈ ops, op.diskArgsPositive = true) →
      (∀ k e, find s.map_ k = some e → e.buffer = none →
        0 < e.disk_addr ∧ 0 < e.disk_size) →
      run ops s = some s1 →
      ∀ k e, find s1.map_ k = some e → e.buffer = none →
        0 < e.disk_addr ∧ 0 < e.disk_size := by
  induction ops with
  | nil =>
    intro s s1 _ hinv hrun
    simp only [run, Option.some.injEq] at hrun
    subst hrun
    exact hinv
  | cons op ops ih =>
    intro s s2 hargs hinv hrun
    rcases Option.eq_none_or_eq_some (op.step s) with hstep | ⟨s1, hstep⟩
    · simp [run, hstep] at hrun
    · have hrun1 : run ops s1 = some s2 := by simpa [run, hstep] using hrun
      have hop : op.diskArgsPositive = true := hargs op (List.mem_cons_self _ _)
      refine ih s1 s2 (fun o ho => hargs o (List.mem_cons_of_mem _ ho)) ?_ hrun1
      intro k e1 hf1 hcold
      rcases step_entry op s s1 k e1 hstep hf1 with
        ⟨e, he, hb, _, _, ha, hsz⟩ | ⟨e, d, fn, _, _, hhot, _⟩ |
        ⟨e, a, sz, hopeq, _, _, _, _, ha, hsz⟩ | ⟨_, hcreated⟩
      · rw [ha, hsz]
        exact hinv k e he (by rw [← hb]; exact hcold)
      · rw [hcold] at hhot
        cases hhot
      · rw [hopeq] at hop
        simp only [Op.diskArgsPositive, Bool.and_eq_true, decide_eq_true_eq] at hop
        rw [ha, hsz]
        exact hop
      · rcases hcreated with ⟨vs, _, he1⟩ | ⟨vs, a, sz, hopeq, he1⟩
        · rw [he1] at hcold
          cases hcold
        · rw [hopeq] at hop
          simp only [Op.diskArgsPositive, Bool.and_eq_true, decide_eq_true_eq] at hop
          rw [he1]
          exact hop

/-- C12 (amended): in every state reached from a new map by calls in which every
`addColdPage` and every `flushPage` passes a positive disk address and a positive disk
size, every entry in the map with disk address 0 has its buffer, and every entry
without buffer has a positive disk address and a positive disk size. -/
theorem hot_cold_invariant (ops : List Op) (s : PageMap)
    (hargs : ∀ op ∈ ops, op.diskArgsPositive = true)
    (hrun : run ops PageMap.init = some s) :
    ∀ k e, find s.map_ k = some e →
      (e.disk_addr = 0 → e.buffer.isSome = true) ∧
      (e.buffer = none → 0 < e.disk_addr ∧ 0 < e.disk_size) := by
  have hcold := run_cold_has_disk ops PageMap.init s hargs
    (by intro k e hf; simp [PageMap.init, find] at hf) hrun
  intro k e hf
  refine ⟨?_, hcold k e hf⟩
  intro h0
  rcases Option.eq_none_or_eq_some e.buffer with hb | ⟨b, hb⟩
  · have := (hcold k e hf hb).1
    omega
  · rw [hb]; rfl

/-- C12 (amended), at a concrete input: after `allocPage(64)`, `addColdPage(64, 4096,
128)` and `flushPage(1, 1, 8192, 64)` both pages are without buffer, page 1 at disk
address 8192 with size 64 and page 2 at disk address 4096 with size 128. -/
theorem hot_cold_invariant_witness :
    (((8192 : Nat) = 0 → (none : Option PageBuffer).isSome = true) ∧
      ((none : Option PageBuffer) = none → 0 < 8192 ∧ 0 < 64)) ∧
    (((4096 : Nat) = 0 → (none : Option PageBuffer).isSome = true) ∧
      ((none : Option PageBuffer) = none → 0 < 4096 ∧ 0 < 128)) :=
  ⟨hot_cold_invariant opsFlushed stFlushed (by decide) (by decide) 1
      { refcount := 1, buffer := none, version := 1, value_size := 64, disk_addr := 8192,
        disk_size := 64 } (by decide),
    hot_cold_invariant opsFlushed stFlushed (by decide) (by decide) 2
      { refcount := 1, buffer := none, version := 1, value_size := 64, disk_addr := 4096,
        disk_size := 128 } (by decide)⟩

/-- C12 as stated fails: after `allocPage(64)` on a new map, `flushPage(1, 1, 0, 0)`
matches version 1 and leaves the entry in the map without buffer, with disk address 0
and disk size 0. -/
theorem flush_to_address_zero_breaks_invariant :
    (run opsFlushZero PageMap.init).map
      (fun s => (find s.map_ 1).map (fun e => (e.buffer, e.disk_addr, e.disk_size))) =
      some (some (none, 0, 0)) := by
  decide

/-! ## Reading -/

/-- Taking a reference and dropping it again leaves an entry as it was. -/
theorem dropEntryReference_fetchAdd (e : PageMapEntry) (hrc : e.refcount < UINT64) :
    (dropEntryReference (fetchAdd e)).2 = e := by
  cases e with
  | mk refcount buffer version value_size disk_addr disk_size =>
    simp only [dropEntryReference, fetchAdd, PageMapEntry.mk.injEq, and_true]
    simp only [UINT64] at hrc ⊢
    omega

/-- Taking a reference on an entry with a non-zero refcount and dropping it again does
not delete the entry. -/
theorem dropEntryReference_fetchAdd_flag (e : PageMapEntry) (hrc : e.refcount < UINT64)
    (hpos : 0 < e.refcount) : (dropEntryReference (fetchAdd e)).1 = false := by
  cases e with
  | mk refcount buffer version value_size disk_addr disk_size =>
    simp only [dropEntryReference, fetchAdd, decide_eq_false_iff_not]
    simp only [UINT64] at hrc hpos ⊢
    omega

/-- Writing back the entry that is already stored changes no lookup. -/
theorem find_store_self (m : List (Nat × PageMapEntry)) (page_id k : Nat) (e : PageMapEntry)
    (h : find m page_id = some e) : find (store m page_id e) k = find m k := by
  rw [find_store]
  by_cases hk : k = page_id
  · subst hk
    rw [if_pos rfl, h]
    rfl
  · rw [if_neg hk]

/-- C15: on a page that is in the map `getPageInfo` returns true with the version, disk
address and disk size of the entry and with `is_dirty` telling whether the buffer is
there; afterwards every lookup in the map gives the same entry as before, refcount
included, and the id counter is the same. The function takes no disk. -/
theorem getPageInfo_snapshot (s : PageMap) (page_id : Nat) (info : PageInfo)
    (e : PageMapEntry) (hf : find s.map_ page_id = some e) (hrc : e.refcount < UINT64) :
    (getPageInfo s page_id info).1 = true ∧
    (getPageInfo s page_id info).2.1 =
      { version := e.version, is_dirty := e.buffer.isSome, disk_addr := e.disk_addr,
        disk_size := e.disk_size } ∧
    (∀ k, find (getPageInfo s page_id info).2.2.map_ k = find s.map_ k) ∧
    (getPageInfo s page_id info).2.2.page_id_ = s.page_id_ ∧
    (getPageInfo s page_id info).2.2.detached = s.detached ∧
    (0 < e.refcount → (getPageInfo s page_id info).2.2.destroyed = s.destroyed) := by
  rw [getPageInfo_found s page_id info e hf]
  refine ⟨rfl, rfl, ?_, rfl, rfl, ?_⟩
  · intro k
    rw [release_map, dropEntryReference_fetchAdd e hrc]
    exact find_store_self s.map_ page_id k e hf
  · intro hpos
    simp only [release, dropEntryReference_fetchAdd_flag e hrc hpos]
    rfl

/-- C15, at a concrete input: the page of `stModified`. -/
theorem getPageInfo_snapshot_witness :
    (getPageInfo stModified 1 infoZero).1 = true ∧
    (getPageInfo stModified 1 infoZero).2.1 =
      { version := 2, is_dirty := true, disk_addr := 0, disk_size := 0 } ∧
    (∀ k, find (getPageInfo stModified 1 infoZero).2.2.map_ k = find stModified.map_ k) ∧
    (getPageInfo stModified 1 infoZero).2.2.page_id_ = stModified.page_id_ ∧
    (getPageInfo stModified 1 infoZero).2.2.detached = stModified.detached ∧
    (0 < 1 → (getPageInfo stModified 1 infoZero).2.2.destroyed = stModified.destroyed) :=
  getPageInfo_snapshot stModified 1 infoZero
    { refcount := 1, buffer := some { value_size := 64, values := [171] }, version := 2,
      value_size := 64, disk_addr := 0, disk_size := 0 }
    (by rfl) (by decide)

/-- C16: on a page that is in the map, `getPage` on a hot entry returns true and the
buffer of the entry; on a cold entry its result and output are those of `loadPage` on
the value size, disk address and disk size of the entry (and it aborts when `loadPage`
does); whenever it returns, the entry has the same buffer, version, disk address and
disk size as before. -/
theorem getPage_reads (d : Disk) (s : PageMap) (page_id : Nat) (buf : PageBuffer)
    (e : PageMapEntry) (hf : find s.map_ page_id = some e) :
    (∀ b, e.buffer = some b → ∃ s1, getPage d s page_id buf = some (true, b, s1)) ∧
    (e.buffer = none →
      (getPage d s page_id buf).map (fun r => (r.1, r.2.1)) =
        loadPage d e.value_size e.disk_addr e.disk_size buf) ∧
    (∀ r, getPage d s page_id buf = some r →
      ∃ e1, find r.2.2.map_ page_id = some e1 ∧ e1.buffer = e.buffer ∧
        e1.version = e.version ∧ e1.disk_addr = e.disk_addr ∧
        e1.disk_size = e.disk_size) := by
  refine ⟨?_, ?_, ?_⟩
  · intro b hb
    exact ⟨_, getPage_hot d s page_id buf e b hf hb⟩
  · intro hb
    unfold getPage
    rw [hf]
    simp only [fetchAdd, hb]
    rcases Option.eq_none_or_eq_some
      (loadPage d e.value_size e.disk_addr e.disk_size buf) with hl | ⟨q, hl⟩
    · rw [hl]; rfl
    · rw [hl]; rfl
  · intro r hr
    refine ⟨_, getPage_find_same d s page_id buf r e hr hf, ?_⟩
    simp [dropEntryReference, fetchAdd]

/-- C16, at the input of the third scenario: `getPage` on the cold page imported by
`addColdPage(64, 4096, 128)` returns what `loadPage(64, 4096, 128)` returns, and the
page stays cold. -/
theorem getPage_reads_witness :
    (getPage diskGood stCold 1 PageBuffer.empty).map (fun r => (r.1, r.2.1)) =
      some (true, { value_size := 64, values := [4096, 128] }) ∧
    ((∀ b, (none : Option PageBuffer) = some b →
      ∃ s1, getPage diskGood stCold 1 PageBuffer.empty = some (true, b, s1)) ∧
    ((none : Option PageBuffer) = none →
      (getPage diskGood stCold 1 PageBuffer.empty).map (fun r => (r.1, r.2.1)) =
        loadPage diskGood 64 4096 128 PageBuffer.empty) ∧
    (∀ r, getPage diskGood stCold 1 PageBuffer.empty = some r →
      ∃ e1, find r.2.2.map_ 1 = some e1 ∧ e1.buffer = none ∧
        e1.version = 1 ∧ e1.disk_addr = 4096 ∧ e1.disk_size = 128)) :=
  ⟨by decide,
    getPage_reads diskGood stCold 1 PageBuffer.empty
      { refcount := 1, buffer := none, version := 1, value_size := 64, disk_addr := 4096,
        disk_size := 128 }
      (by rfl)⟩

/-! ## Loading from disk -/

/-- C20: with a positive disk address and a positive disk size `loadPage` returns, and
it returns true exactly when the allocation succeeds, the read returns a positive count
and `decode` returns true. The output does not depend on the buffer passed in: it is
`PageBuffer(value_size)` when the allocation or the read fails, and otherwise what
`decode` makes of `PageBuffer(value_size)`. -/
theorem loadPage_result (d : Disk) (value_size disk_addr disk_size : Nat) (buf : PageBuffer)
    (haddr : 0 < disk_addr) (hsize : 0 < disk_size) :
    ∃ rc out, loadPage d value_size disk_addr disk_size buf = some (rc, out) ∧
      (rc = true ↔
        (d.malloc disk_size = true ∧ 0 < (d.pread disk_size disk_addr).1 ∧
          (d.decode (PageBuffer.ofSize value_size) (d.pread disk_size disk_addr).2
            disk_size).1 = true)) ∧
      (d.malloc disk_size = false ∨ (d.pread disk_size disk_addr).1 ≤ 0 →
        out = PageBuffer.ofSize value_size) ∧
      (d.malloc disk_size = true → 0 < (d.pread disk_size disk_addr).1 →
        out = (d.decode (PageBuffer.ofSize value_size) (d.pread disk_size disk_addr).2
          disk_size).2) := by
  have ha : ¬ disk_addr = 0 := by omega
  have hs : ¬ disk_size = 0 := by omega
  unfold loadPage
  rw [if_neg ha, if_neg hs]
  by_cases hm : d.malloc disk_size = false
  · simp [hm]
  · have hm1 : d.malloc disk_size = true := by simpa using hm
    by_cases hr : 0 < (d.pread disk_size disk_addr).1
    · by_cases hd : (d.decode (PageBuffer.ofSize value_size)
          (d.pread disk_size disk_addr).2 disk_size).1 = false
      · simp [hm1, hr, hd]
      · have hd1 : (d.decode (PageBuffer.ofSize value_size)
            (d.pread disk_size disk_addr).2 disk_size).1 = true := by simpa using hd
        simp [hm1, hr, hd1]
    · have hr0 : (d.pread disk_size disk_addr).1 ≤ 0 := by omega
      simp [hm1, hr, hr0]

/-- C20, at a concrete input: a read of 128 bytes at address 4096 that succeeds. -/
theorem loadPage_result_witness :
    loadPage diskGood 64 4096 128 PageBuffer.empty =
      some (true, { value_size := 64, values := [4096, 128] }) ∧
    ∃ rc out, loadPage diskGood 64 4096 128 PageBuffer.empty = some (rc, out) ∧
      (rc = true ↔
        (diskGood.malloc 128 = true ∧ 0 < (diskGood.pread 128 4096).1 ∧
          (diskGood.decode (PageBuffer.ofSize 64) (diskGood.pread 128 4096).2
            128).1 = true)) ∧
      (diskGood.malloc 128 = false ∨ (diskGood.pread 128 4096).1 ≤ 0 →
        out = PageBuffer.ofSize 64) ∧
      (diskGood.malloc 128 = true → 0 < (diskGood.pread 128 4096).1 →
        out = (diskGood.decode (PageBuffer.ofSize 64) (diskGood.pread 128 4096).2
          128).2) :=
  ⟨by decide, loadPage_result diskGood 64 4096 128 PageBuffer.empty (by decide) (by decide)⟩

/-! ## Destruction -/

/-- C17 fails on the code: after `addColdPage(64, 4096, 128)` on a new map, a
`modifyPage` whose load fails, `deletePage(1)` and the destructor, no entry has been
deleted and the entry of page 1 is left behind with refcount 1. -/
theorem failed_load_leaks_entry :
    (modifyPage diskBad stCold 1 (fnWrite 7)).map
      (fun r => (r.1, (destroy (deletePage r.2 1)).map_.length,
        (destroy (deletePage r.2 1)).destroyed.length,
        (destroy (deletePage r.2 1)).detached.map (fun p => (p.1, p.2.refcount)))) =
      some (false, 0, 0, [(1, 1)]) := by
  decide

/-! ## Versions never go back -/

theorem modifyCount_cons (page_id : Nat) (op : Op) (ops : List Op) :
    modifyCount page_id (op :: ops) =
      (if op.modifiesPage page_id = true then 1 else 0) + modifyCount page_id ops := by
  unfold modifyCount
  by_cases h : op.modifiesPage page_id = true
  · simp [List.filter_cons, h, Nat.add_comm]
  · simp [List.filter_cons, h]

/-- The version of an entry that is in the map before and after a call is the same,
unless the call is a `modifyPage` on the page, which sets it to the old version plus 1
modulo `2^64`. -/
theorem step_version (op : Op) (s s1 : PageMap) (k : Nat) (e e1 : PageMapEntry)
    (hs : op.step s = some s1) (hf : find s.map_ k = some e)
    (hf1 : find s1.map_ k = some e1) :
    e1.version = e.version ∨
    (op.modifiesPage k = true ∧ e1.version = (e.version + 1) % UINT64) := by
  rcases step_entry op s s1 k e1 hs hf1 with
    ⟨e0, he, _, hv, _⟩ | ⟨e0, d, fn, hop, he, _, hv, _⟩ |
    ⟨e0, a, sz, _, he, _, hv, _⟩ | ⟨hnone, _⟩
  · rw [hf] at he
    simp only [Option.some.injEq] at he
    subst he
    exact Or.inl hv
  · rw [hf] at he
    simp only [Option.some.injEq] at he
    subst he
    right
    refine ⟨?_, hv⟩
    rw [hop]
    simp [Op.modifiesPage]
  · rw [hf] at he
    simp only [Option.some.injEq] at he
    subst he
    exact Or.inl hv
  · rw [hf] at hnone
    cases hnone

/-- One call advances the id counter by 1 when it is an allocation and the counter does
not wrap, and not at all otherwise. -/
theorem step_page_id (op : Op) (s s1 : PageMap) (hs : op.step s = some s1)
    (hlt : s.page_id_ + (if op.isAlloc = true then 1 else 0) < UINT64) :
    s1.page_id_ = s.page_id_ + (if op.isAlloc = true then 1 else 0) := by
  by_cases ha : op.isAlloc = true
  · rw [if_pos ha] at hlt ⊢
    rw [(step_shape_alloc op s s1 hs ha).2.1]
    exact Nat.mod_eq_of_lt hlt
  · rw [if_neg ha]
    have ha0 : op.isAlloc = false := by simpa using ha
    exact (step_shape_other op s s1 hs ha0).2.1

/-- Over an execution in which neither the id counter nor the version counter of page
`k` wraps, the version found under `k` at the end is at least the version found under
`k` at the start. -/
theorem run_version_le (k : Nat) (ops : List Op) :
    ∀ (s s1 : PageMap) (e e1 : PageMapEntry),
      run ops s = some s1 →
      find s.map_ k = some e → find s1.map_ k = some e1 →
      s.page_id_ + allocCount ops < UINT64 → k ≤ s.page_id_ →
      e.version + modifyCount k ops < UINT64 →
      e.version ≤ e1.version := by
  induction ops with
  | nil =>
    intro s s1 e e1 hrun hf hf1 _ _ _
    simp only [run, Option.some.injEq] at hrun
    subst hrun
    rw [hf] at hf1
    simp only [Option.some.injEq] at hf1
    subst hf1
    exact Nat.le_refl _
  | cons op ops ih =>
    intro s s2 e e2 hrun hf hf2 hids hk hver
    rw [allocCount_cons] at hids
    rw [modifyCount_cons] at hver
    rcases Option.eq_none_or_eq_some (op.step s) with hstep | ⟨s1, hstep⟩
    · simp [run, hstep] at hrun
    · have hrun1 : run ops s1 = some s2 := by simpa [run, hstep] using hrun
      have hpid := step_page_id op s s1 hstep (by omega)
      rcases Option.eq_none_or_eq_some (find s1.map_ k) with hf1 | ⟨e1, hf1⟩
      · exfalso
        have hne : find s2.map_ k ≠ none := by rw [hf2]; simp
        rcases (run_ids_bounded ops s1 s2 hrun1 (by omega)).2 k hne with h | h
        · exact h hf1
        · omega
      · have hle : e1.version ≤ e2.version →  e.version ≤ e2.version := by
          intro h12
          rcases step_version op s s1 k e e1 hstep hf hf1 with hv | ⟨hm, hv⟩
          · omega
          · rw [if_pos hm] at hver
            rw [Nat.mod_eq_of_lt (by omega)] at hv
            omega
        apply hle
        refine ih s1 s2 e1 e2 hrun1 hf1 hf2 (by omega) (by omega) ?_
        rcases step_version op s s1 k e e1 hstep hf hf1 with hv | ⟨hm, hv⟩
        · rw [hv]
          omega
        · rw [if_pos hm] at hver
          rw [Nat.mod_eq_of_lt (by omega)] at hv
          omega

/-- C14 (amended): for every call and every entry that is in the map before and after
it, the version after the call is the version before, unless the call is a `modifyPage`
on that page, which sets it to the version before plus 1 modulo `2^64`: the version
never decreases unless it wraps from `2^64 - 1` to 0. Consequently, in an execution
from a new map in which neither the id counter nor the version counter of the page
wraps, the version a `getPageInfo` returns is at least the version an earlier
`getPageInfo` on the same id returned. -/
theorem version_monotone :
    (∀ (op : Op) (s s1 : PageMap) (k : Nat) (e e1 : PageMapEntry),
      op.step s = some s1 → find s.map_ k = some e → find s1.map_ k = some e1 →
      (e1.version = e.version ∨
        (op.modifiesPage k = true ∧ e1.version = (e.version + 1) % UINT64)) ∧
      (op.modifiesPage k = false → e1.version = e.version) ∧
      (e.version + 1 < UINT64 → e.version ≤ e1.version)) ∧
    (∀ (ops0 ops : List Op) (s s1 : PageMap) (k : Nat) (info0 info1 : PageInfo),
      run ops0 PageMap.init = some s →
      (getPageInfo s k info0).1 = true →
      run ops (getPageInfo s k info0).2.2 = some s1 →
      (getPageInfo s1 k info1).1 = true →
      allocCount ops0 + allocCount ops < UINT64 →
      (getPageInfo s k info0).2.1.version + modifyCount k ops < UINT64 →
      (getPageInfo s k info0).2.1.version ≤ (getPageInfo s1 k info1).2.1.version) := by
  constructor
  · intro op s s1 k e e1 hs hf hf1
    have h := step_version op s s1 k e e1 hs hf hf1
    refine ⟨h, ?_, ?_⟩
    · intro hm
      rcases h with h | ⟨h, _⟩
      · exact h
      · rw [hm] at h; cases h
    · intro hlt
      rcases h with h | ⟨_, h⟩
      · omega
      · rw [Nat.mod_eq_of_lt hlt] at h
        omega
  · intro ops0 ops s s1 k info0 info1 hreach hobs0 hrun hobs1 hids hver
    rcases Option.eq_none_or_eq_some (find s.map_ k) with hf | ⟨e, hf⟩
    · rw [getPageInfo_notFound s k info0 hf] at hobs0
      cases hobs0
    rcases Option.eq_none_or_eq_some (find s1.map_ k) with hf1 | ⟨e1, hf1⟩
    · rw [getPageInfo_notFound s1 k info1 hf1] at hobs1
      cases hobs1
    have h0 : PageMap.init.page_id_ + allocCount ops0 < UINT64 := by
      simp only [PageMap.init]; omega
    obtain ⟨hp, hkeys⟩ := run_ids_bounded ops0 PageMap.init s hreach h0
    have hp0 : s.page_id_ = allocCount ops0 := by simpa [PageMap.init] using hp
    have hk : k ≤ s.page_id_ := by
      rcases hkeys k (by rw [hf]; simp) with h | h
      · exact absurd rfl h
      · exact h.2
    have hfa := getPageInfo_find_same s k info0 e hf
    have hpa : (getPageInfo s k info0).2.2.page_id_ = s.page_id_ :=
      (getPageInfo_shape s k info0).1
    have hva : (getPageInfo s k info0).2.1.version = e.version := by
      rw [getPageInfo_found s k info0 e hf]
    have hvb : (getPageInfo s1 k info1).2.1.version = e1.version := by
      rw [getPageInfo_found s1 k info1 e1 hf1]
    rw [hva] at hver ⊢
    rw [hvb]
    have := run_version_le k ops (getPageInfo s k info0).2.2 s1 _ e1 hrun hfa hf1
      (by omega) (by omega) (by simpa [dropEntryReference, fetchAdd] using hver)
    simpa [dropEntryReference, fetchAdd] using this

/-- C14 (amended), at a concrete input: the flusher of the second scenario reads
version 2, a `modifyPage` follows, and the next `getPageInfo` returns version 3. -/
theorem version_monotone_witness :
    (getPageInfo stTwice 1 infoZero).2.1.version = 3 ∧
    (getPageInfo stModified 1 infoZero).2.1.version ≤
      (getPageInfo stTwice 1 infoZero).2.1.version :=
  ⟨by decide,
    version_monotone.2 [.allocPage 64, .modifyPage diskGood 1 (fnWrite 171)]
      [.modifyPage diskGood 1 (fnWrite 205)] stModified stTwice 1 infoZero infoZero
      (by decide) (by decide) (by decide) (by decide) (by decide) (by decide)⟩

/-- C14 as stated fails: in a state reached from a new map by `allocPage(64)` and
`2^64 - 2` calls of `modifyPage`, `getPageInfo` returns version `2^64 - 1`; after one
more `modifyPage` it returns version 0. -/
theorem version_decreases_on_wrap :
    modifyMany diskGood 1 fnFalse 18446744073709551614 stAlloc = stMaxVersion ∧
    (getPageInfo stMaxVersion 1 infoZero).2.1.version = 18446744073709551615 ∧
    (run opsOneModify (getPageInfo stMaxVersion 1 infoZero).2.2).map
      (fun s1 => (getPageInfo s1 1 infoZero).2.1.version) = some 0 := by
  refine ⟨stMaxVersion_reached, ?_⟩
  decide

/-! ## The version at the last flush -/

theorem ghost_of_present (op : Op) (s : PageMap) (g : Nat → Option Nat) (k : Nat)
    (e : PageMapEntry) (hf : find s.map_ k = some e) (hk : op.keeps k = true) :
    op.ghost s g k = g k := by
  cases op with
  | allocPage value_size => simp [Op.ghost, hf]
  | addColdPage value_size disk_addr disk_size => simp [Op.ghost, hf]
  | getPageInfo id info => rfl
  | getPage d id buf => rfl
  | modifyPage d id fn => rfl
  | flushPage id version disk_addr disk_size =>
    have hid : id ≠ k := by simpa [Op.keeps] using hk
    have hne : ¬ k = id := fun h => hid h.symm
    simp [Op.ghost, hne]
  | deletePage id =>
    have hid : id ≠ k := by simpa [Op.keeps] using hk
    have hne : ¬ k = id := fun h => hid h.symm
    simp [Op.ghost, hne]

theorem runGhost_cons (op : Op) (ops : List Op) (s s1 : PageMap) (g : Nat → Option Nat)
    (h : op.step s = some s1) :
    runGhost (op :: ops) s g = runGhost ops s1 (op.ghost s g) := by
  simp [runGhost, h]

theorem run_cons (op : Op) (ops : List Op) (s s1 : PageMap) (h : op.step s = some s1) :
    run (op :: ops) s = run ops s1 := by
  simp [run, h]

/-- One call keeps, for the page `k`, a bound on the version and the relation between
the entry and the version at its last flush, as long as the version does not wrap. -/
theorem step_dirty (k : Nat) (op : Op) (s s1 : PageMap) (g : Nat → Option Nat) (n : Nat)
    (hs : op.step s = some s1)
    (hn : n + (if op.modifiesPage k = true then 1 else 0) + 1 < UINT64)
    (hJ : ∀ e, find s.map_ k = some e →
      e.version ≤ 1 + n ∧
      (e.disk_addr = 0 ∨ ∃ v, g k = some v ∧ v ≤ e.version ∧
        (e.buffer.isSome = true → v < e.version))) :
    ∀ e1, find s1.map_ k = some e1 →
      e1.version ≤ 1 + (n + (if op.modifiesPage k = true then 1 else 0)) ∧
      (e1.disk_addr = 0 ∨ ∃ v, op.ghost s g k = some v ∧ v ≤ e1.version ∧
        (e1.buffer.isSome = true → v < e1.version)) := by
  intro e1 hf1
  by_cases hkeep : op.keeps k = true
  · rcases step_entry op s s1 k e1 hs hf1 with
      ⟨e0, he, hb, hv, _, ha, _⟩ | ⟨e0, d, fn, hop, he, hhot, hv, _, ha, _⟩ |
      ⟨e0, a, sz, hop, _⟩ | ⟨hnone, hcreated⟩
    · obtain ⟨h1, h2⟩ := hJ e0 he
      rw [ghost_of_present op s g k e0 he hkeep, hv, ha, hb]
      exact ⟨by omega, h2⟩
    · obtain ⟨h1, h2⟩ := hJ e0 he
      have hm : op.modifiesPage k = true := by rw [hop]; simp [Op.modifiesPage]
      rw [if_pos hm] at hn ⊢
      rw [Nat.mod_eq_of_lt (by omega)] at hv
      rw [ghost_of_present op s g k e0 he hkeep, hv, ha]
      refine ⟨by omega, ?_⟩
      rcases h2 with h2 | ⟨v, hg, hle, _⟩
      · exact Or.inl h2
      · exact Or.inr ⟨v, hg, by omega, fun _ => by omega⟩
    · rw [hop] at hkeep
      simp [Op.keeps] at hkeep
    · rcases hcreated with ⟨vs, _, he1⟩ | ⟨vs, a, sz, hop, he1⟩
      · rw [he1]
        exact ⟨by simp, Or.inl rfl⟩
      · have hkid : k = (s.page_id_ + 1) % UINT64 := by
          have ha : op.isAlloc = true := by rw [hop]; rfl
          rcases step_alloc_find op s s1 k hs ha (by rw [hf1]; simp) with h | h
          · exact absurd hnone h
          · exact h
        have hg : op.ghost s g k = some 1 := by
          rw [hop]
          simp [Op.ghost, addColdPage_fst, hnone, ← hkid]
        rw [he1, hg]
        exact ⟨by simp, Or.inr ⟨1, rfl, by simp, by simp⟩⟩
  · cases op with
    | allocPage value_size => simp [Op.keeps] at hkeep
    | addColdPage value_size disk_addr disk_size => simp [Op.keeps] at hkeep
    | getPageInfo id info => simp [Op.keeps] at hkeep
    | getPage d id buf => simp [Op.keeps] at hkeep
    | modifyPage d id fn => simp [Op.keeps] at hkeep
    | deletePage id =>
      have hid : id = k := by simpa [Op.keeps] using hkeep
      subst hid
      simp only [Op.step, Option.some.injEq] at hs
      subst hs
      rw [find_deletePage_same] at hf1
      cases hf1
    | flushPage id version disk_addr disk_size =>
      have hid : id = k := by simpa [Op.keeps] using hkeep
      subst hid
      simp only [Op.step, Option.some.injEq] at hs
      subst hs
      simp only [Op.modifiesPage, Bool.false_eq_true, if_false, Nat.add_zero] at hn ⊢
      rcases Option.eq_none_or_eq_some (find s.map_ id) with hf | ⟨e0, hf⟩
      · have : flushPage s id version disk_addr disk_size = s := by
          unfold flushPage; rw [hf]
        rw [this, hf] at hf1
        cases hf1
      · obtain ⟨h1, h2⟩ := hJ e0 hf
        by_cases hv : e0.version = version
        · rw [find_flushPage_match s id version disk_addr disk_size e0 hf hv] at hf1
          simp only [Option.some.injEq] at hf1
          subst hf1
          have hg : (Op.flushPage id version disk_addr disk_size).ghost s g id =
              some version := by
            simp [Op.ghost, hf, hv]
          rw [hg]
          refine ⟨by simpa [dropEntryReference, fetchAdd] using h1, Or.inr ⟨version, rfl, ?_, ?_⟩⟩
          · simp [dropEntryReference, fetchAdd, hv]
          · simp [dropEntryReference, fetchAdd]
        · rw [find_flushPage_stale s id version disk_addr disk_size e0 hf
            (fun h => hv h.symm)] at hf1
          simp only [Option.some.injEq] at hf1
          subst hf1
          have hg : (Op.flushPage id version disk_addr disk_size).ghost s g id = g id := by
            simp [Op.ghost, hf, hv]
          rw [hg]
          simpa [dropEntryReference, fetchAdd] using And.intro h1 h2

/-- Over an execution with fewer than `2^64 - 1` calls of `modifyPage` on page `k`, the
entry under `k` keeps a version at least the version at its last flush, and greater
when it is hot, unless its disk address is 0. -/
theorem run_dirty (k : Nat) (ops : List Op) :
    ∀ (s s1 : PageMap) (g : Nat → Option Nat) (n : Nat),
      run ops s = some s1 →
      n + modifyCount k ops + 1 < UINT64 →
      (∀ e, find s.map_ k = some e →
        e.version ≤ 1 + n ∧
        (e.disk_addr = 0 ∨ ∃ v, g k = some v ∧ v ≤ e.version ∧
          (e.buffer.isSome = true → v < e.version))) →
      ∀ e1, find s1.map_ k = some e1 →
        e1.version ≤ 1 + (n + modifyCount k ops) ∧
        (e1.disk_addr = 0 ∨ ∃ v, runGhost ops s g k = some v ∧ v ≤ e1.version ∧
          (e1.buffer.isSome = true → v < e1.version)) := by
  induction ops with
  | nil =>
    intro s s1 g n hrun _ hJ
    simp only [run, Option.some.injEq] at hrun
    subst hrun
    simpa [runGhost, modifyCount] using hJ
  | cons op ops ih =>
    intro s s2 g n hrun hn hJ
    rw [modifyCount_cons] at hn ⊢
    rcases Option.eq_none_or_eq_some (op.step s) with hstep | ⟨s1, hstep⟩
    · simp [run, hstep] at hrun
    · rw [run_cons op ops s s1 hstep] at hrun
      rw [runGhost_cons op ops s s1 g hstep]
      have h := ih s1 s2 (op.ghost s g)
        (n + (if op.modifiesPage k = true then 1 else 0)) hrun (by omega)
        (step_dirty k op s s1 g n hstep (by omega) hJ)
      intro e1 hf1
      obtain ⟨h1, h2⟩ := h e1 hf1
      exact ⟨by omega, h2⟩

/-- C13 (amended): in every state reached from a new map by calls of which fewer than
`2^64 - 1` are a `modifyPage` on the page, an entry whose buffer is present has disk
address 0 or a version greater than the version at its last flush (the version at its
last `flushPage` that matched, or 1 for an entry imported by `addColdPage`). -/
theorem dirty_exclusive (ops : List Op) (s : PageMap) (k : Nat) (e : PageMapEntry)
    (hrun : run ops PageMap.init = some s)
    (hcount : modifyCount k ops + 1 < UINT64)
    (hf : find s.map_ k = some e) (hhot : e.buffer.isSome = true) :
    e.disk_addr = 0 ∨
    ∃ v, runGhost ops PageMap.init (fun _ => none) k = some v ∧ v < e.version := by
  have h := run_dirty k ops PageMap.init s (fun _ => none) 0 hrun (by omega)
    (by intro e0 h0; simp [PageMap.init, find] at h0) e hf
  rcases h.2 with h0 | ⟨v, hg, _, hlt⟩
  · exact Or.inl h0
  · exact Or.inr ⟨v, hg, hlt hhot⟩

/-- C13 (amended), at a concrete input: a page imported by `addColdPage`, loaded by a
`modifyPage`, flushed at version 2 and modified again is hot at disk address 8192 with
version 3, above the version 2 of its last flush. -/
theorem dirty_exclusive_witness :
    runGhost opsColdCycle PageMap.init (fun _ => none) 1 = some 2 ∧
    ((8192 : Nat) = 0 ∨
    ∃ v, runGhost opsColdCycle PageMap.init (fun _ => none) 1 = some v ∧ v < 3) :=
  ⟨by decide,
    dirty_exclusive opsColdCycle stColdCycle 1
      { refcount := 1, buffer := some { value_size := 64, values := [9] }, version := 3,
        value_size := 64, disk_addr := 8192, disk_size := 64 }
      (by decide) (by decide) (by decide) (by decide)⟩

theorem run_append (l1 l2 : List Op) :
    ∀ s : PageMap, run (l1 ++ l2) s = (run l1 s).bind (run l2) := by
  induction l1 with
  | nil => intro s; rfl
  | cons op l1 ih =>
    intro s
    rcases Option.eq_none_or_eq_some (op.step s) with hstep | ⟨s1, hstep⟩
    · simp [run, hstep]
    · rw [List.cons_append, run_cons op _ s s1 hstep, run_cons op _ s s1 hstep]
      exact ih s1

theorem runGhost_append (l1 l2 : List Op) :
    ∀ (s s1 : PageMap) (g : Nat → Option Nat), run l1 s = some s1 →
      runGhost (l1 ++ l2) s g = runGhost l2 s1 (runGhost l1 s g) := by
  induction l1 with
  | nil =>
    intro s s1 g h
    simp only [run, Option.some.injEq] at h
    subst h
    rfl
  | cons op l1 ih =>
    intro s s2 g h
    rcases Option.eq_none_or_eq_some (op.step s) with hstep | ⟨s1, hstep⟩
    · simp [run, hstep] at h
    · rw [run_cons op _ s s1 hstep] at h
      rw [List.cons_append, runGhost_cons op _ s s1 g hstep,
        runGhost_cons op _ s s1 g hstep]
      exact ih s1 s2 _ h

/-- Calls of `modifyPage` leave the version at the last flush as it is. -/
theorem runGhost_replicate_modify (d : Disk) (id : Nat)
    (fn : PageBuffer → Bool × PageBuffer) (n : Nat) :
    ∀ (s : PageMap) (g : Nat → Option Nat),
      runGhost (List.replicate n (.modifyPage d id fn)) s g = g := by
  induction n with
  | zero => intro s g; rfl
  | succ n ih =>
    intro s g
    rw [List.replicate_succ]
    rcases Option.eq_none_or_eq_some ((Op.modifyPage d id fn).step s) with hstep | ⟨s1, hstep⟩
    · simp [runGhost, hstep]
    · rw [runGhost_cons _ _ s s1 g hstep]
      exact ih s1 _

theorem step_stVersion (v : Nat) :
    (Op.modifyPage diskGood 1 fnFalse).step (stVersion v) =
      some (stVersion ((v + 1) % UINT64)) := by
  have hr : (UINT64 - 1 + (1 + 1) % UINT64) % UINT64 = 1 := by decide
  simp only [Op.step, modifyPage, stVersion, find, fetchAdd, release, dropEntryReference,
    store, fnFalse, if_true, Option.map_some', List.map_cons, List.map_nil, hr]
  simp
  decide

/-- From the state with version `v`, `n` calls of `modifyPage` lead to the state with
version `(v + n) mod 2^64`. -/
theorem run_replicate_stVersion (n : Nat) :
    ∀ v : Nat, v < UINT64 →
      run (List.replicate n (.modifyPage diskGood 1 fnFalse)) (stVersion v) =
        some (stVersion ((v + n) % UINT64)) := by
  induction n with
  | zero =>
    intro v hv
    rw [Nat.add_zero, Nat.mod_eq_of_lt hv]
    rfl
  | succ n ih =>
    intro v hv
    rw [List.replicate_succ, run_cons _ _ _ _ (step_stVersion v),
      ih ((v + 1) % UINT64) (Nat.mod_lt _ (by decide))]
    have : ((v + 1) % UINT64 + n) % UINT64 = (v + (n + 1)) % UINT64 := by
      rw [Nat.add_mod, Nat.mod_mod, ← Nat.add_mod, Nat.add_assoc, Nat.add_comm 1 n]
    rw [this]

/-- An execution that takes the version of page 1 to `2^64 - 1`, flushes the page at
that version and modifies it once more ends in `stWrapDirty`, with `2^64 - 1` as the
version at the last flush. -/
theorem run_wrap_dirty (n : Nat) (hn : (1 + n) % UINT64 = 18446744073709551615) :
    run (.allocPage 64 ::
        (List.replicate n (.modifyPage diskGood 1 fnFalse) ++
          [.flushPage 1 18446744073709551615 4096 128, .modifyPage diskGood 1 fnFalse]))
      PageMap.init = some stWrapDirty ∧
    runGhost (.allocPage 64 ::
        (List.replicate n (.modifyPage diskGood 1 fnFalse) ++
          [.flushPage 1 18446744073709551615 4096 128, .modifyPage diskGood 1 fnFalse]))
      PageMap.init (fun _ => none) 1 = some 18446744073709551615 := by
  have ha : (Op.allocPage 64).step PageMap.init = some (stVersion 1) := by decide
  have hrep : run (List.replicate n (.modifyPage diskGood 1 fnFalse)) (stVersion 1) =
      some (stVersion 18446744073709551615) := by
    rw [run_replicate_stVersion n 1 (by decide), hn]
  constructor
  · rw [run_cons _ _ _ _ ha, run_append, hrep, Option.some_bind]
    decide
  · rw [runGhost_cons _ _ _ _ _ ha, runGhost_append _ _ _ _ _ hrep,
      runGhost_replicate_modify]
    decide

/-- C13 as stated fails: `allocPage(64)`, `2^64 - 2` calls of `modifyPage`, a
`flushPage` at version `2^64 - 1` to disk address 4096 and one more `modifyPage` leave
the page hot, at disk address 4096, with version 0, while the version at its last flush
is `2^64 - 1`. -/
theorem dirty_entry_below_flush_version_after_wrap :
    (run opsWrapDirty PageMap.init).map
      (fun s => (find s.map_ 1).map (fun e => (e.buffer.isSome, e.disk_addr, e.version))) =
      some (some (true, 4096, 0)) ∧
    runGhost opsWrapDirty PageMap.init (fun _ => none) 1 = some 18446744073709551615 := by
  obtain ⟨h1, h2⟩ := run_wrap_dirty 18446744073709551614 (by decide)
  refine ⟨?_, h2⟩
  rw [show run opsWrapDirty PageMap.init = some stWrapDirty from h1]
  decide

/-! ## No disk access under the map mutex -/

theorem loadPageTraced_snd (d : Disk) (value_size disk_addr disk_size : Nat)
    (buf : PageBuffer) :
    (loadPageTraced d value_size disk_addr disk_size buf).2 =
      loadPage d value_size disk_addr disk_size buf := by
  unfold loadPageTraced loadPage
  by_cases h1 : disk_addr = 0
  · simp [h1]
  by_cases h2 : disk_size = 0
  · simp [h1, h2]
  by_cases h3 : d.malloc disk_size = false
  · simp [h1, h2, h3]
  by_cases h4 : 0 < (d.pread disk_size disk_addr).1
  · by_cases h5 : (d.decode (PageBuffer.ofSize value_size)
        (d.pread disk_size disk_addr).2 disk_size).1 = false
    · simp [h1, h2, h3, h4, h5]
    · simp [h1, h2, h3, h4, h5]
  · simp [h1, h2, h3, h4]

theorem loadPageTraced_fst (d : Disk) (value_size disk_addr disk_size : Nat)
    (buf : PageBuffer) :
    (loadPageTraced d value_size disk_addr disk_size buf).1 = [] ∨
    (loadPageTraced d value_size disk_addr disk_size buf).1 = [.pread] := by
  unfold loadPageTraced
  by_cases h1 : disk_addr = 0
  · simp [h1]
  by_cases h2 : disk_size = 0
  · simp [h1, h2]
  by_cases h3 : d.malloc disk_size = false
  · simp [h1, h2, h3]
  by_cases h4 : 0 < (d.pread disk_size disk_addr).1
  · by_cases h5 : (d.decode (PageBuffer.ofSize value_size)
        (d.pread disk_size disk_addr).2 disk_size).1 = false
    · simp [h1, h2, h3, h4, h5]
    · simp [h1, h2, h3, h4, h5]
  · simp [h1, h2, h3, h4]

theorem getPageInfoTraced_snd (s : PageMap) (page_id : Nat) (info : PageInfo) :
    (getPageInfoTraced s page_id info).2 = getPageInfo s page_id info := by
  unfold getPageInfoTraced getPageInfo
  cases find s.map_ page_id <;> rfl

theorem getPageTraced_snd (d : Disk) (s : PageMap) (page_id : Nat) (buf : PageBuffer) :
    (getPageTraced d s page_id buf).2 = getPage d s page_id buf := by
  unfold getPageTraced getPage
  cases find s.map_ page_id with
  | none => rfl
  | some e =>
    simp only
    cases (fetchAdd e).buffer with
    | some b => rfl
    | none =>
      simp only [loadPageTraced_snd]

theorem modifyPageTraced_snd (d : Disk) (s : PageMap) (page_id : Nat)
    (fn : PageBuffer → Bool × PageBuffer) :
    (modifyPageTraced d s page_id fn).2 = modifyPage d s page_id fn := by
  unfold modifyPageTraced modifyPage
  cases find s.map_ page_id with
  | none => rfl
  | some e =>
    simp only
    cases (fetchAdd e).buffer with
    | some b => rfl
    | none =>
      simp only [loadPageTraced_snd]
      cases loadPage d (fetchAdd e).value_size (fetchAdd e).disk_addr
          (fetchAdd e).disk_size PageBuffer.empty with
      | none => rfl
      | some q =>
        obtain ⟨ok, b⟩ := q
        cases ok <;> rfl

theorem flushPageTraced_snd (s : PageMap) (page_id version disk_addr disk_size : Nat) :
    (flushPageTraced s page_id version disk_addr disk_size).2 =
      flushPage s page_id version disk_addr disk_size := by
  unfold flushPageTraced
  rcases Option.eq_none_or_eq_some (find s.map_ page_id) with h | ⟨e, h⟩
  · rw [h]
    unfold flushPage
    rw [h]
  · rw [h]

theorem deletePageTraced_snd (s : PageMap) (page_id : Nat) :
    (deletePageTraced s page_id).2 = deletePage s page_id := by
  unfold deletePageTraced
  rcases Option.eq_none_or_eq_some (find s.map_ page_id) with h | ⟨e, h⟩
  · rw [h]
    unfold deletePage
    rw [h]
  · rw [h]

/-- C18: in the events of every call, every `pread`, every `posix_fadvise` and every
acquisition of an entry lock comes after the map mutex has been released. -/
theorem no_disk_access_under_map_mutex (op : Op) (s : PageMap) :
    mapMutexFree false (op.trace s) = true := by
  cases op with
  | allocPage value_size => rfl
  | addColdPage value_size disk_addr disk_size => rfl
  | getPageInfo page_id info =>
    simp only [Op.trace, getPageInfoTraced]
    cases find s.map_ page_id <;> rfl
  | flushPage page_id version disk_addr disk_size =>
    simp only [Op.trace, flushPageTraced]
    cases find s.map_ page_id <;> rfl
  | deletePage page_id =>
    simp only [Op.trace, deletePageTraced]
    cases find s.map_ page_id with
    | none => rfl
    | some e =>
      simp only
      split <;> rfl
  | getPage d page_id buf =>
    simp only [Op.trace, getPageTraced]
    cases find s.map_ page_id with
    | none => rfl
    | some e =>
      simp only
      cases (fetchAdd e).buffer with
      | some b => rfl
      | none =>
        simp only
        rcases loadPageTraced_fst d (fetchAdd e).value_size (fetchAdd e).disk_addr
          (fetchAdd e).disk_size buf with h | h <;> rw [h] <;> rfl
  | modifyPage d page_id fn =>
    simp only [Op.trace, modifyPageTraced]
    cases find s.map_ page_id with
    | none => rfl
    | some e =>
      simp only
      cases (fetchAdd e).buffer with
      | some b => rfl
      | none =>
        simp only
        rcases loadPageTraced_fst d (fetchAdd e).value_size (fetchAdd e).disk_addr
          (fetchAdd e).disk_size PageBuffer.empty with h | h <;>
        · rw [h]
          cases (loadPageTraced d (fetchAdd e).value_size (fetchAdd e).disk_addr
            (fetchAdd e).disk_size PageBuffer.empty).2 with
          | none => rfl
          | some q =>
            obtain ⟨ok, b⟩ := q
            cases ok <;> rfl

/-- The events of a `getPage` on the cold page of `stCold` and of a `modifyPage` on it:
the disk is read after the map mutex is released. -/
theorem trace_examples :
    (Op.getPage diskGood 1 PageBuffer.empty).trace stCold =
      [.lockMap, .unlockMap, .lockEntry, .unlockEntry, .pread] ∧
    (Op.modifyPage diskGood 1 fnFalse).trace stCold =
      [.lockMap, .unlockMap, .lockEntry, .pread, .fadvise, .callFn, .unlockEntry] ∧
    (Op.deletePage 1).trace stCold = [.lockMap, .unlockMap, .fadvise] ∧
    mapMutexFree false [.lockMap, .pread, .unlockMap] = false := by
  decide

/-! ## The assertions of `loadPage` -/

/-- With a positive disk address and a positive disk size `loadPage` passes its two
assertions. -/
theorem loadPage_ne_none (d : Disk) (value_size disk_addr disk_size : Nat) (buf : PageBuffer)
    (haddr : 0 < disk_addr) (hsize : 0 < disk_size) :
    loadPage d value_size disk_addr disk_size buf ≠ none := by
  have ha : ¬ disk_addr = 0 := by omega
  have hs : ¬ disk_size = 0 := by omega
  unfold loadPage
  rw [if_neg ha, if_neg hs]
  simp only
  split
  · simp
  · split
    · split <;> simp
    · simp

/-- When every entry without buffer has a positive disk address and size, `getPage`
does not abort. -/
theorem getPage_ne_none (d : Disk) (s : PageMap) (page_id : Nat) (buf : PageBuffer)
    (hcold : ∀ k e, find s.map_ k = some e → e.buffer = none →
      0 < e.disk_addr ∧ 0 < e.disk_size) :
    getPage d s page_id buf ≠ none := by
  rcases Option.eq_none_or_eq_some (find s.map_ page_id) with hf | ⟨e, hf⟩
  · rw [getPage_notFound d s page_id buf hf]
    simp
  · rcases Option.eq_none_or_eq_some e.buffer with hb | ⟨b, hb⟩
    · obtain ⟨ha, hs⟩ := hcold page_id e hf hb
      have hl := loadPage_ne_none d e.value_size e.disk_addr e.disk_size buf ha hs
      unfold getPage
      rw [hf]
      simp only [fetchAdd, hb]
      rcases Option.eq_none_or_eq_some
        (loadPage d e.value_size e.disk_addr e.disk_size buf) with h | ⟨q, h⟩
      · exact absurd h hl
      · rw [h]
        simp
    · rw [getPage_hot d s page_id buf e b hf hb]
      simp

/-- When every entry without buffer has a positive disk address and size, `modifyPage`
does not abort. -/
theorem modifyPage_ne_none (d : Disk) (s : PageMap) (page_id : Nat)
    (fn : PageBuffer → Bool × PageBuffer)
    (hcold : ∀ k e, find s.map_ k = some e → e.buffer = none →
      0 < e.disk_addr ∧ 0 < e.disk_size) :
    modifyPage d s page_id fn ≠ none := by
  rcases Option.eq_none_or_eq_some (find s.map_ page_id) with hf | ⟨e, hf⟩
  · rw [modifyPage_notFound d s page_id fn hf]
    simp
  · rcases Option.eq_none_or_eq_some e.buffer with hb | ⟨b, hb⟩
    · obtain ⟨ha, hs⟩ := hcold page_id e hf hb
      have hl := loadPage_ne_none d e.value_size e.disk_addr e.disk_size
        PageBuffer.empty ha hs
      rcases Option.eq_none_or_eq_some
        (loadPage d e.value_size e.disk_addr e.disk_size PageBuffer.empty) with h | ⟨q, h⟩
      · exact absurd h hl
      · obtain ⟨ok, b⟩ := q
        cases ok with
        | false =>
          rw [modifyPage_eq_of_load_failure d s page_id fn e b hf hb h]
          simp
        | true =>
          rw [modifyPage_eq d s page_id fn e b hf (Or.inr ⟨hb, h⟩)]
          simp
    · rw [modifyPage_eq d s page_id fn e b hf (Or.inl hb)]
      simp

/-- When every entry without buffer has a positive disk address and size, no call
aborts. -/
theorem step_ne_none (op : Op) (s : PageMap)
    (hcold : ∀ k e, find s.map_ k = some e → e.buffer = none →
      0 < e.disk_addr ∧ 0 < e.disk_size) :
    op.step s ≠ none := by
  cases op with
  | allocPage value_size => simp [Op.step]
  | addColdPage value_size disk_addr disk_size => simp [Op.step]
  | getPageInfo page_id info => simp [Op.step]
  | flushPage page_id version disk_addr disk_size => simp [Op.step]
  | deletePage page_id => simp [Op.step]
  | getPage d page_id buf =>
    simp only [Op.step, ne_eq, Option.map_eq_none']
    exact getPage_ne_none d s page_id buf hcold
  | modifyPage d page_id fn =>
    simp only [Op.step, ne_eq, Option.map_eq_none']
    exact modifyPage_ne_none d s page_id fn hcold

/-- When every `addColdPage` and every `flushPage` call passes a positive disk address
and size, an execution from a state in which every entry without buffer has a positive
disk address and size does not abort. -/
theorem run_ne_none (ops : List Op) :
    ∀ s : PageMap,
      (∀ op ∈ ops, op.diskArgsPositive = true) →
      (∀ k e, find s.map_ k = some e → e.buffer = none →
        0 < e.disk_addr ∧ 0 < e.disk_size) →
      run ops s ≠ none := by
  induction ops with
  | nil => intro s _ _; simp [run]
  | cons op ops ih =>
    intro s hargs hcold
    rcases Option.eq_none_or_eq_some (op.step s) with hstep | ⟨s1, hstep⟩
    · exact absurd hstep (step_ne_none op s hcold)
    · rw [run_cons op ops s s1 hstep]
      refine ih s1 (fun o ho => hargs o (List.mem_cons_of_mem _ ho)) ?_
      have hone : run [op] s = some s1 := by simp [run, hstep]
      exact run_cold_has_disk [op] s s1
        (fun o ho => hargs o (by
          rw [List.mem_singleton] at ho
          rw [ho]
          exact List.mem_cons_self _ _))
        hcold hone

/-- C21: when every `addColdPage` and every `flushPage` call passes a positive disk
address and a positive disk size, an execution from a new map never aborts in an
assertion of `loadPage`; in the state it reaches every entry without buffer, whose disk
address and size are what `getPage` and `modifyPage` pass to `loadPage`, has both
positive, and no `getPage` or `modifyPage` call aborts there. -/
theorem loadPage_precondition_met (ops : List Op)
    (hargs : ∀ op ∈ ops, op.diskArgsPositive = true) :
    ∃ s, run ops PageMap.init = some s ∧
      (∀ k e, find s.map_ k = some e → e.buffer = none →
        0 < e.disk_addr ∧ 0 < e.disk_size ∧
        ∀ d buf, loadPage d e.value_size e.disk_addr e.disk_size buf ≠ none) ∧
      (∀ d k buf, getPage d s k buf ≠ none) ∧
      (∀ d k fn, modifyPage d s k fn ≠ none) := by
  have hinit : ∀ k e, find PageMap.init.map_ k = some e → e.buffer = none →
      0 < e.disk_addr ∧ 0 < e.disk_size := by
    intro k e hf
    simp [PageMap.init, find] at hf
  rcases Option.eq_none_or_eq_some (run ops PageMap.init) with hrun | ⟨s, hrun⟩
  · exact absurd hrun (run_ne_none ops PageMap.init hargs hinit)
  · have hcold := run_cold_has_disk ops PageMap.init s hargs hinit hrun
    refine ⟨s, hrun, ?_, ?_, ?_⟩
    · intro k e hf hb
      obtain ⟨ha, hs⟩ := hcold k e hf hb
      exact ⟨ha, hs, fun d buf =>
        loadPage_ne_none d e.value_size e.disk_addr e.disk_size buf ha hs⟩
    · intro d k buf
      exact getPage_ne_none d s k buf hcold
    · intro d k fn
      exact modifyPage_ne_none d s k fn hcold

/-- C21, at a concrete input: a cold page is imported, loaded by a `modifyPage`, flushed
to disk address 8192 and loaded again. -/
theorem loadPage_precondition_met_witness :
    run opsColdCycle PageMap.init = some stColdCycle ∧
    ∃ s, run opsColdCycle PageMap.init = some s ∧
      (∀ k e, find s.map_ k = some e → e.buffer = none →
        0 < e.disk_addr ∧ 0 < e.disk_size ∧
        ∀ d buf, loadPage d e.value_size e.disk_addr e.disk_size buf ≠ none) ∧
      (∀ d k buf, getPage d s k buf ≠ none) ∧
      (∀ d k fn, modifyPage d s k fn ≠ none) :=
  ⟨by decide, loadPage_precondition_met opsColdCycle (by decide)⟩

/-! ## One page does not touch another -/

theorem find_emplace_new (m : List (Nat × PageMapEntry)) (page_id k : Nat)
    (e1 : PageMapEntry) (h : find (emplace m page_id e1) k ≠ none) :
    find m k ≠ none ∨ k = page_id := by
  rw [find_emplace] at h
  rcases Option.eq_none_or_eq_some (find m k) with h0 | ⟨x, h0⟩
  · right
    rw [h0] at h
    by_contra hne
    simp [hne] at h
  · left
    rw [h0]
    simp

theorem find_emplace_same (m : List (Nat × PageMapEntry)) (page_id : Nat)
    (e1 : PageMapEntry) : find (emplace m page_id e1) page_id ≠ none := by
  rw [find_emplace]
  cases find m page_id <;> simp

/-- C22: for two distinct ids `i` and `j` with `j` in the map, `modifyPage`,
`flushPage`, `deletePage`, `getPage` and `getPageInfo` on `i` leave the entry stored
under `j` as it is; `allocPage` and `addColdPage` leave the entry stored under `j` as it
is, and the only id they can add to the map is the one they return, which is in the
map afterwards. -/
theorem page_isolation (s : PageMap) (i j : Nat) (e : PageMapEntry) (hij : i ≠ j)
    (hj : find s.map_ j = some e) :
    (∀ d fn r, modifyPage d s i fn = some r → find r.2.map_ j = some e) ∧
    (∀ version disk_addr disk_size,
      find (flushPage s i version disk_addr disk_size).map_ j = some e) ∧
    find (deletePage s i).map_ j = some e ∧
    (∀ d buf r, getPage d s i buf = some r → find r.2.2.map_ j = some e) ∧
    (∀ info, find (getPageInfo s i info).2.2.map_ j = some e) ∧
    (∀ value_size,
      find (allocPage s value_size).2.map_ j = some e ∧
      find (allocPage s value_size).2.map_ (allocPage s value_size).1 ≠ none ∧
      ∀ k, find (allocPage s value_size).2.map_ k ≠ none →
        find s.map_ k ≠ none ∨ k = (allocPage s value_size).1) ∧
    (∀ value_size disk_addr disk_size,
      find (addColdPage s value_size disk_addr disk_size).2.map_ j = some e ∧
      find (addColdPage s value_size disk_addr disk_size).2.map_
        (addColdPage s value_size disk_addr disk_size).1 ≠ none ∧
      ∀ k, find (addColdPage s value_size disk_addr disk_size).2.map_ k ≠ none →
        find s.map_ k ≠ none ∨ k = (addColdPage s value_size disk_addr disk_size).1) := by
  have hji : j ≠ i := fun h => hij h.symm
  refine ⟨?_, ?_, ?_, ?_, ?_, ?_, ?_⟩
  · intro d fn r hr
    rw [find_of_shape s _ i j hji (modifyPage_shape d s i fn r hr).2]
    exact hj
  · intro version disk_addr disk_size
    rw [find_of_shape s _ i j hji (flushPage_shape s i version disk_addr disk_size).2]
    exact hj
  · rcases (deletePage_shape s i).2 with h | h
    · rw [h]; exact hj
    · rw [h, find_erase_other _ _ _ hji]; exact hj
  · intro d buf r hr
    rw [find_of_shape s _ i j hji (getPage_shape d s i buf r hr).2]
    exact hj
  · intro info
    rw [find_of_shape s _ i j hji (getPageInfo_shape s i info).2]
    exact hj
  · intro value_size
    rw [allocPage_map, allocPage_fst]
    exact ⟨find_emplace_some _ _ _ e _ hj, find_emplace_same _ _ _,
      fun k hk => find_emplace_new _ _ _ _ hk⟩
  · intro value_size disk_addr disk_size
    rw [addColdPage_map, addColdPage_fst]
    exact ⟨find_emplace_some _ _ _ e _ hj, find_emplace_same _ _ _,
      fun k hk => find_emplace_new _ _ _ _ hk⟩

/-- C22, at a concrete input: calls on page 1 of `stTwoPages` leave the cold page 2 as
it is. -/
theorem page_isolation_witness :
    (∀ d fn r, modifyPage d stTwoPages 1 fn = some r →
      find r.2.map_ 2 = some entryCold) ∧
    (∀ version disk_addr disk_size,
      find (flushPage stTwoPages 1 version disk_addr disk_size).map_ 2 =
        some entryCold) ∧
    find (deletePage stTwoPages 1).map_ 2 =
      some entryCold ∧
    (∀ d buf r, getPage d stTwoPages 1 buf = some r →
      find r.2.2.map_ 2 = some entryCold) ∧
    (∀ info, find (getPageInfo stTwoPages 1 info).2.2.map_ 2 =
      some entryCold) ∧
    (∀ value_size,
      find (allocPage stTwoPages value_size).2.map_ 2 =
        some entryCold ∧
      find (allocPage stTwoPages value_size).2.map_ (allocPage stTwoPages value_size).1 ≠
        none ∧
      ∀ k, find (allocPage stTwoPages value_size).2.map_ k ≠ none →
        find stTwoPages.map_ k ≠ none ∨ k = (allocPage stTwoPages value_size).1) ∧
    (∀ value_size disk_addr disk_size,
      find (addColdPage stTwoPages value_size disk_addr disk_size).2.map_ 2 =
        some entryCold ∧
      find (addColdPage stTwoPages value_size disk_addr disk_size).2.map_
        (addColdPage stTwoPages value_size disk_addr disk_size).1 ≠ none ∧
      ∀ k, find (addColdPage stTwoPages value_size disk_addr disk_size).2.map_ k ≠ none →
        find stTwoPages.map_ k ≠ none ∨
          k = (addColdPage stTwoPages value_size disk_addr disk_size).1) :=
  page_isolation stTwoPages 1 2
    entryCold
    (by decide) (by decide)

/-! ## Flushing twice at the same version -/

/-- The refcount an operation writes back is in the range of `size_t`. -/
theorem dropEntryReference_refcount_lt (e : PageMapEntry) :
    (dropEntryReference e).2.refcount < UINT64 := by
  cases e with
  | mk refcount buffer version value_size disk_addr disk_size =>
    simp only [dropEntryReference]
    exact Nat.mod_lt _ (by decide)

/-- A flush that matches the version of an entry that is cold at the same disk address
and size, with a refcount in the range of `size_t`, writes the entry back as it was. -/
theorem flush_again_entry (e : PageMapEntry) (hrc : e.refcount < UINT64)
    (hb : e.buffer = none) :
    (dropEntryReference
      { fetchAdd e with disk_addr := e.disk_addr, disk_size := e.disk_size,
                        buffer := none }).2 = e := by
  have h := dropEntryReference_fetchAdd e hrc
  cases e with
  | mk refcount buffer version value_size disk_addr disk_size =>
    simp only at hb
    subst hb
    exact h

/-- C23: on a page that is in the map with version `v`, after `flushPage(id, v, a1, s1)`
a second `flushPage(id, v, a2, s2)` is applied too: the entry ends with disk address
`a2`, disk size `s2`, no buffer and version `v`; with `a2 = a1` and `s2 = s1` the second
call changes no lookup in the map and not the id counter. -/
theorem flush_twice (s : PageMap) (page_id v a1 s1 a2 s2 : Nat) (e : PageMapEntry)
    (hf : find s.map_ page_id = some e) (hv : e.version = v) :
    (∃ e1, find (flushPage s page_id v a1 s1).map_ page_id = some e1 ∧
      e1.buffer = none ∧ e1.version = v ∧ e1.disk_addr = a1 ∧ e1.disk_size = s1) ∧
    (∃ e2, find (flushPage (flushPage s page_id v a1 s1) page_id v a2 s2).map_ page_id =
        some e2 ∧
      e2.disk_addr = a2 ∧ e2.disk_size = s2 ∧ e2.buffer = none ∧ e2.version = v ∧
      e2.value_size = e.value_size) ∧
    (∀ k, find (flushPage (flushPage s page_id v a1 s1) page_id v a1 s1).map_ k =
      find (flushPage s page_id v a1 s1).map_ k) ∧
    (flushPage (flushPage s page_id v a1 s1) page_id v a1 s1).page_id_ =
      (flushPage s page_id v a1 s1).page_id_ := by
  have hf1 := find_flushPage_match s page_id v a1 s1 e hf hv
  have hv1 : (dropEntryReference
      { fetchAdd e with disk_addr := a1, disk_size := s1, buffer := none }).2.version = v := by
    simp [dropEntryReference, fetchAdd, hv]
  have hf2 := find_flushPage_match (flushPage s page_id v a1 s1) page_id v a2 s2 _ hf1 hv1
  refine ⟨⟨_, hf1, ?_⟩, ⟨_, hf2, ?_⟩, ?_, ?_⟩
  · simp [dropEntryReference, fetchAdd, hv]
  · simp [dropEntryReference, fetchAdd, hv]
  · intro k
    by_cases hk : k = page_id
    · subst hk
      rw [find_flushPage_match (flushPage s k v a1 s1) k v a1 s1 _ hf1 hv1, hf1]
      have hsame := flush_again_entry
        (dropEntryReference
          { fetchAdd e with disk_addr := a1, disk_size := s1, buffer := none }).2
        (dropEntryReference_refcount_lt _) (by simp [dropEntryReference, fetchAdd])
      simp only [dropEntryReference, fetchAdd] at hsame ⊢
      rw [hsame]
    · exact find_of_shape (flushPage s page_id v a1 s1) _ page_id k hk
        (flushPage_shape (flushPage s page_id v a1 s1) page_id v a1 s1).2
  · exact (flushPage_shape (flushPage s page_id v a1 s1) page_id v a1 s1).1

/-- C23, at a concrete input: the page of `stModified` has version 2; it is flushed at
version 2 to address 4096 and then at version 2 to address 8192. -/
theorem flush_twice_witness :
    (find (flushPage (flushPage stModified 1 2 4096 128) 1 2 8192 64).map_ 1).map
      (fun e => (e.buffer, e.version, e.disk_addr, e.disk_size)) =
      some (none, 2, 8192, 64) ∧
    ((∃ e1, find (flushPage stModified 1 2 4096 128).map_ 1 = some e1 ∧
      e1.buffer = none ∧ e1.version = 2 ∧ e1.disk_addr = 4096 ∧ e1.disk_size = 128) ∧
    (∃ e2, find (flushPage (flushPage stModified 1 2 4096 128) 1 2 8192 64).map_ 1 =
        some e2 ∧
      e2.disk_addr = 8192 ∧ e2.disk_size = 64 ∧ e2.buffer = none ∧ e2.version = 2 ∧
      e2.value_size = 64) ∧
    (∀ k, find (flushPage (flushPage stModified 1 2 4096 128) 1 2 4096 128).map_ k =
      find (flushPage stModified 1 2 4096 128).map_ k) ∧
    (flushPage (flushPage stModified 1 2 4096 128) 1 2 4096 128).page_id_ =
      (flushPage stModified 1 2 4096 128).page_id_) :=
  ⟨by decide,
    flush_twice stModified 1 2 4096 128 8192 64
      { refcount := 1, buffer := some { value_size := 64, values := [171] }, version := 2,
        value_size := 64, disk_addr := 0, disk_size := 0 }
      (by rfl) (by rfl)⟩

end tsdb
